import Mathlib

/-! # Verification of the file-system report tools

Two C programs are embedded here:

* `file_system_report.c` (namespace `FsReport`): the scanner `scan_directory`, the two
  `qsort` comparators and the aggregation done by `main`;
* `CREATE-FS.C` (namespace `CreateFs`): the content generator `create_random_text_file`
  and the populating loops of `main`.

Modelling conventions.

* The global arrays `files` and `dirs` are memories `Nat → record`; the counters
  `file_count` and `dir_count` index them.  A store at index `i` is `Function.update _ i`,
  so a store beyond the declared capacity is visible as a change of the memory there.
* `long` and `int` results that the C code can overflow or narrow (`total_storage`, the
  comparator results) are integers wrapped with `wrap64` / `wrap32`.  The counters
  `file_count`, `dir_count` never exceed the capacities; `local_file_count` is an unbounded
  integer (a directory would need `2^31` regular files to wrap it).
* What `opendir`, `readdir` and `stat` answer during one scan is a finite tree: a directory
  is `none` when `opendir` fails and `some entries` otherwise, and every entry carries the name
  `readdir` returned and the answer `stat` gave for the path the scanner built for it.
  The same type describes a directory tree, every entry then carrying its own kind and size.
  The two agree when no built path reaches `MAX_PATH` characters (`fits`); `observed` gives
  the answers for a directory tree when `snprintf` cuts a path inside the last name.
* `qsort` belongs to the C library.  It is a parameter, constrained by the contract of ISO C.
-/

namespace FsReport

/-! ## Constants and records (`file_system_report.c`, lines 8-27) -/

def MAX_PATH : Nat := 4096
def MAX_FILES : Nat := 1000
def MAX_DIRS : Nat := 500

/-- Record `FileInfo`: a path and a `long` size. -/
structure FileInfo where
  path : String
  size : Int
deriving DecidableEq

/-- Record `DirInfo`: a path and an `int` count of files. -/
structure DirInfo where
  path : String
  file_count : Int
deriving DecidableEq

/-- One entry returned by `readdir`, with the answer of `stat` on its full path:
`nostat` when `stat` fails, `dir` when `S_ISDIR` holds (with the answer of `opendir` on it:
`none` when it cannot be opened), `reg` when `S_ISREG` holds (with `st_size`), `other`
for anything else. -/
inductive Entry where
  | nostat (d_name : String)
  | dir (d_name : String) (listing : Option (List Entry))
  | reg (d_name : String) (st_size : Int)
  | other (d_name : String)

/-- Field `d_name` of a directory entry. -/
def Entry.d_name : Entry → String
  | .nostat n => n
  | .dir n _ => n
  | .reg n _ => n
  | .other n => n

/-- The globals `files`, `dirs`, `file_count`, `dir_count`. -/
structure State where
  files : Nat → FileInfo
  dirs : Nat → DirInfo
  file_count : Nat
  dir_count : Nat

/-- The globals at program start: zero-initialised arrays, both counters `0`. -/
def init : State := ⟨fun _ => ⟨"", 0⟩, fun _ => ⟨"", 0⟩, 0, 0⟩

/-- Result of `snprintf(fullpath, sizeof(fullpath), "%s/%s", path, d_name)`: the joined
path, cut to `MAX_PATH - 1` characters. -/
def snprintf_path (path d_name : String) : String :=
  String.mk ((path ++ "/" ++ d_name).data.take (MAX_PATH - 1))

/-! ## `scan_directory` (lines 30-71) -/

/-- Statement `strcpy(files[file_count].path, fullpath)`. -/
def set_file_path (s : State) (fullpath : String) : State :=
  { s with files := Function.update s.files s.file_count ⟨fullpath, (s.files s.file_count).size⟩ }

/-- Statement `files[file_count].size = st.st_size`. -/
def set_file_size (s : State) (st_size : Int) : State :=
  { s with files := Function.update s.files s.file_count ⟨(s.files s.file_count).path, st_size⟩ }

/-- Statement `file_count++`. -/
def incr_file_count (s : State) : State :=
  { s with file_count := s.file_count + 1 }

/-- Lines 53-57: the guarded store of a file record. -/
def store_file (s : State) (fullpath : String) (st_size : Int) : State :=
  if s.file_count < MAX_FILES then
    incr_file_count (set_file_size (set_file_path s fullpath) st_size)
  else s

/-- Statement `strcpy(dirs[dir_count].path, path)`. -/
def set_dir_path (s : State) (path : String) : State :=
  { s with dirs := Function.update s.dirs s.dir_count ⟨path, (s.dirs s.dir_count).file_count⟩ }

/-- Statement `dirs[dir_count].file_count = local_file_count`. -/
def set_dir_files (s : State) (local_file_count : Int) : State :=
  { s with dirs := Function.update s.dirs s.dir_count ⟨(s.dirs s.dir_count).path, local_file_count⟩ }

/-- Statement `dir_count++`. -/
def incr_dir_count (s : State) : State :=
  { s with dir_count := s.dir_count + 1 }

/-- Lines 64-68: the guarded store of a directory record. -/
def store_dir (s : State) (path : String) (local_file_count : Int) : State :=
  if s.dir_count < MAX_DIRS then
    incr_dir_count (set_dir_files (set_dir_path s path) local_file_count)
  else s

mutual
/-- Function `scan_directory(path)`: returns at once when `opendir` fails, otherwise runs the
`readdir` loop from `local_file_count = 0` and then stores the directory record. -/
def scan_directory (path : String) : Option (List Entry) → State → State
  | none, s => s
  | some es, s =>
    let r := scan_loop path es s 0
    store_dir r.1 path r.2
termination_by structural x => x
/-- The `while ((entry = readdir(dir)) != NULL)` loop over the remaining entries; the
integer is `local_file_count`. -/
def scan_loop (path : String) : List Entry → State → Int → State × Int
  | [], s, n => (s, n)
  | e :: es, s, n =>
    let r := scan_entry path e s n
    scan_loop path es r.1 r.2
termination_by structural x => x
/-- One iteration of the loop body (lines 40-60). -/
def scan_entry (path : String) : Entry → State → Int → State × Int
  | e, s, n =>
    if e.d_name = "." ∨ e.d_name = ".." then (s, n)
    else match e with
      | .nostat _ => (s, n)
      | .dir d_name listing => (scan_directory (snprintf_path path d_name) listing s, n)
      | .reg d_name st_size => (store_file s (snprintf_path path d_name) st_size, n + 1)
      | .other _ => (s, n)
termination_by structural x => x
end

/-! ### The sequence of global states a scan goes through -/

/-- The states after each statement of the guarded file store (none when the guard fails). -/
def store_file_trace (s : State) (fullpath : String) (st_size : Int) : List State :=
  if s.file_count < MAX_FILES then
    [set_file_path s fullpath,
     set_file_size (set_file_path s fullpath) st_size,
     incr_file_count (set_file_size (set_file_path s fullpath) st_size)]
  else []

/-- The states after each statement of the guarded directory store. -/
def store_dir_trace (s : State) (path : String) (local_file_count : Int) : List State :=
  if s.dir_count < MAX_DIRS then
    [set_dir_path s path,
     set_dir_files (set_dir_path s path) local_file_count,
     incr_dir_count (set_dir_files (set_dir_path s path) local_file_count)]
  else []

mutual
/-- Every state of the globals that `scan_directory` produces, in order, one per executed
assignment to a global, nested calls included. -/
def scan_directory_trace (path : String) : Option (List Entry) → State → List State
  | none, _ => []
  | some es, s =>
    scan_loop_trace path es s 0 ++
      store_dir_trace (scan_loop path es s 0).1 path (scan_loop path es s 0).2
termination_by structural x => x
/-- States produced by the loop over the remaining entries. -/
def scan_loop_trace (path : String) : List Entry → State → Int → List State
  | [], _, _ => []
  | e :: es, s, n =>
    scan_entry_trace path e s n ++
      scan_loop_trace path es (scan_entry path e s n).1 (scan_entry path e s n).2
termination_by structural x => x
/-- States produced by one iteration of the loop body. -/
def scan_entry_trace (path : String) : Entry → State → Int → List State
  | e, s, _ =>
    if e.d_name = "." ∨ e.d_name = ".." then []
    else match e with
      | .nostat _ => []
      | .dir d_name listing => scan_directory_trace (snprintf_path path d_name) listing s
      | .reg d_name st_size => store_file_trace s (snprintf_path path d_name) st_size
      | .other _ => []
termination_by structural x => x
end

/-! ### Reference functions over the tree (independent of the globals) -/

mutual
/-- Total size of the regular files reachable from a directory, by direct recursion. -/
def reachable_size : Option (List Entry) → Int
  | none => 0
  | some es => reachable_size_list es
termination_by structural x => x
/-- Total size of the regular files reachable through a list of entries. -/
def reachable_size_list : List Entry → Int
  | [] => 0
  | e :: es => reachable_size_entry e + reachable_size_list es
termination_by structural x => x
/-- Total size of the regular files reachable through one entry. -/
def reachable_size_entry : Entry → Int
  | .nostat _ => 0
  | .dir d_name listing => if d_name = "." ∨ d_name = ".." then 0 else reachable_size listing
  | .reg d_name st_size => if d_name = "." ∨ d_name = ".." then 0 else st_size
  | .other _ => 0
termination_by structural x => x
end

mutual
/-- The regular files reachable from a directory, in depth-first traversal order, each
with the path the scanner builds for it. -/
def all_files (path : String) : Option (List Entry) → List FileInfo
  | none => []
  | some es => all_files_list path es
termination_by structural x => x
/-- Reachable regular files below a list of entries of the directory `path`. -/
def all_files_list (path : String) : List Entry → List FileInfo
  | [] => []
  | e :: es => all_files_entry path e ++ all_files_list path es
termination_by structural x => x
/-- Reachable regular files below one entry of the directory `path`. -/
def all_files_entry (path : String) : Entry → List FileInfo
  | .nostat _ => []
  | .dir d_name listing =>
    if d_name = "." ∨ d_name = ".." then [] else all_files (snprintf_path path d_name) listing
  | .reg d_name st_size =>
    if d_name = "." ∨ d_name = ".." then [] else [⟨snprintf_path path d_name, st_size⟩]
  | .other _ => []
termination_by structural x => x
end

mutual
/-- The tree without the entries whose `stat` fails (when `nostat` is set) and without the
entries that are neither directories nor regular files (when `other` is set), at every
depth. -/
def prune (nostat other : Bool) : Option (List Entry) → Option (List Entry)
  | none => none
  | some es => some (prune_list nostat other es)
termination_by structural x => x
/-- The listing without the deleted entries. -/
def prune_list (nostat other : Bool) : List Entry → List Entry
  | [] => []
  | e :: es => prune_entry nostat other e ++ prune_list nostat other es
termination_by structural x => x
/-- An entry after deletion: no entry when it is deleted, else the entry itself, pruned
below when it is a directory. -/
def prune_entry (nostat other : Bool) : Entry → List Entry
  | .nostat d_name => if nostat then [] else [.nostat d_name]
  | .dir d_name listing => [.dir d_name (prune nostat other listing)]
  | .reg d_name st_size => [.reg d_name st_size]
  | .other d_name => if other then [] else [.other d_name]
termination_by structural x => x
end

/-- Whether an entry is a regular file of the listing it stands in: `1` if so, else `0`. -/
def direct_file : Entry → Int
  | .reg d_name _ => if d_name = "." ∨ d_name = ".." then 0 else 1
  | _ => 0

/-- Number of regular files that are direct children in a listing. -/
def direct_files : List Entry → Int
  | [] => 0
  | e :: es => direct_file e + direct_files es

mutual
/-- The directories that can be opened, in post-order, each as the pair of its path and
its own listing. -/
def all_dirs (path : String) : Option (List Entry) → List (String × List Entry)
  | none => []
  | some es => all_dirs_list path es ++ [(path, es)]
termination_by structural x => x
/-- Opened directories below a list of entries of the directory `path`. -/
def all_dirs_list (path : String) : List Entry → List (String × List Entry)
  | [] => []
  | e :: es => all_dirs_entry path e ++ all_dirs_list path es
termination_by structural x => x
/-- Opened directories below one entry of the directory `path`. -/
def all_dirs_entry (path : String) : Entry → List (String × List Entry)
  | .nostat _ => []
  | .dir d_name listing =>
    if d_name = "." ∨ d_name = ".." then [] else all_dirs (snprintf_path path d_name) listing
  | .reg _ _ => []
  | .other _ => []
termination_by structural x => x
end

/-- The record a directory should get: its path and the number of its direct regular files. -/
def dir_record (d : String × List Entry) : DirInfo := ⟨d.1, direct_files d.2⟩

/-- The used part of `files`: entries `0 .. file_count - 1`. -/
def files_list (s : State) : List FileInfo := (List.range s.file_count).map s.files

/-- The used part of `dirs`: entries `0 .. dir_count - 1`. -/
def dirs_list (s : State) : List DirInfo := (List.range s.dir_count).map s.dirs

/-- Appending to a collection of bounded capacity: what does not fit is dropped. -/
def cap_append {α : Type} (cap : Nat) (l xs : List α) : List α := l ++ xs.take (cap - l.length)

/-! ### Directory trees and the answers the scanner gets

A value of `Option (List Entry)` read as a directory tree lists, for every directory, its own
entries with their own kind and size.  The scanner asks `stat` about the path it has built in
`fullpath`; when that path has `MAX_PATH` characters or more, `snprintf` cuts it and the answer
is about whatever the cut path names.  `fits` says that no path is cut; `observed` computes the
tree of answers from the directory tree (one character of a `String` standing for one `char`).
-/

mutual
/-- Every path that the scan of the directory `path` builds has fewer than `MAX_PATH`
characters, nested directories included, so that `snprintf` cuts none of them. -/
def fits (path : String) : Option (List Entry) → Bool
  | none => true
  | some es => fits_list path es
termination_by structural x => x
/-- No path built for the entries of the list is cut. -/
def fits_list (path : String) : List Entry → Bool
  | [] => true
  | e :: es => fits_entry path e && fits_list path es
termination_by structural x => x
/-- No path built for the entry, or below it, is cut; no path is built for `.` and `..`. -/
def fits_entry (path : String) : Entry → Bool
  | .nostat d_name =>
    if d_name = "." ∨ d_name = ".." then true
    else decide ((path ++ "/" ++ d_name).length < MAX_PATH)
  | .dir d_name listing =>
    if d_name = "." ∨ d_name = ".." then true
    else decide ((path ++ "/" ++ d_name).length < MAX_PATH) &&
      fits (snprintf_path path d_name) listing
  | .reg d_name _ =>
    if d_name = "." ∨ d_name = ".." then true
    else decide ((path ++ "/" ++ d_name).length < MAX_PATH)
  | .other d_name =>
    if d_name = "." ∨ d_name = ".." then true
    else decide ((path ++ "/" ++ d_name).length < MAX_PATH)
termination_by structural x => x
end

/-- What is left of the name of an entry of the directory `path` when the path built for it
is cut: the cut path is `path`, a slash and these characters. -/
def kept_name (path d_name : String) : String :=
  String.mk (d_name.data.take (MAX_PATH - 1 - (path.length + 1)))

/-- The answer of `stat` for an entry whose path is cut: the cut path names the entry of the
same directory called `kept_name`, so the answer is that entry's kind and size, or a failure
when there is none.  The result is `none` in the cases left out of the model: the cut path
names the directory itself, its parent or another directory, into which the scanner would then
descend through the cut path. -/
def stat_cut (path : String) (siblings : List Entry) (d_name : String) : Option Entry :=
  if kept_name path d_name = "" ∨ kept_name path d_name = "." ∨ kept_name path d_name = ".." then
    none
  else
    match siblings.find? (fun x => decide (x.d_name = kept_name path d_name)) with
    | none => some (.nostat d_name)
    | some (.nostat _) => some (.nostat d_name)
    | some (.dir _ _) => none
    | some (.reg _ st_size) => some (.reg d_name st_size)
    | some (.other _) => some (.other d_name)

mutual
/-- The tree of answers that the scan of the directory tree at `path` gets. -/
def observed (path : String) : Option (List Entry) → Option (Option (List Entry))
  | none => some none
  | some es => (observed_list path es es).map some
termination_by structural x => x
/-- The answers for the entries of a listing; `siblings` is the whole listing. -/
def observed_list (path : String) (siblings : List Entry) : List Entry → Option (List Entry)
  | [] => some []
  | e :: es =>
    match observed_entry path siblings e, observed_list path siblings es with
    | some a, some l => some (a :: l)
    | _, _ => none
termination_by structural x => x
/-- The answer for one entry: its own kind and size when its path is not cut (with the answers
below it when it is a directory), else the answer for the cut path. -/
def observed_entry (path : String) (siblings : List Entry) : Entry → Option Entry
  | .nostat d_name =>
    if d_name = "." ∨ d_name = ".." then some (.nostat d_name)
    else if (path ++ "/" ++ d_name).length < MAX_PATH then some (.nostat d_name)
    else stat_cut path siblings d_name
  | .dir d_name listing =>
    if d_name = "." ∨ d_name = ".." then some (.dir d_name listing)
    else if (path ++ "/" ++ d_name).length < MAX_PATH then
      (observed (snprintf_path path d_name) listing).map (Entry.dir d_name)
    else stat_cut path siblings d_name
  | .reg d_name st_size =>
    if d_name = "." ∨ d_name = ".." then some (.reg d_name st_size)
    else if (path ++ "/" ++ d_name).length < MAX_PATH then some (.reg d_name st_size)
    else stat_cut path siblings d_name
  | .other d_name =>
    if d_name = "." ∨ d_name = ".." then some (.other d_name)
    else if (path ++ "/" ++ d_name).length < MAX_PATH then some (.other d_name)
    else stat_cut path siblings d_name
termination_by structural x => x
end

/-! ## Comparators and aggregation (lines 73-127) -/

/-- Value of a C `long` after wrap-around to 64 bits, two's complement. -/
def wrap64 (x : Int) : Int :=
  (x + 9223372036854775808) % 18446744073709551616 - 9223372036854775808

/-- Value of a C `int` after wrap-around to 32 bits, two's complement. -/
def wrap32 (x : Int) : Int := (x + 2147483648) % 4294967296 - 2147483648

/-- Function `compare_files`: the `long` difference `sb - sa`, returned as an `int`. -/
def compare_files (a b : FileInfo) : Int :=
  let sa := a.size
  let sb := b.size
  wrap32 (wrap64 (sb - sa))

/-- Function `compare_dirs`: the `int` difference `cb - ca`. -/
def compare_dirs (a b : DirInfo) : Int :=
  let ca := a.file_count
  let cb := b.file_count
  wrap32 (cb - ca)

/-- Value of `total_storage` after `i` iterations of the loop of lines 99-101. -/
def total_loop (files : Nat → FileInfo) : Nat → Int
  | 0 => 0
  | i + 1 => wrap64 (total_loop files i + (files i).size)

/-- Type of the library function `qsort`, on the list of the `nmemb` elements at `base`. -/
def QsortFn : Type 1 := (α : Type) → List α → (α → α → Int) → List α

/-- Requirement of ISO C on a comparison function: its answers on the elements of the
array are consistent with one another, that is, they define a total ordering. -/
def Consistent {α : Type} (compar : α → α → Int) (l : List α) : Prop :=
  (∀ a ∈ l, ∀ b ∈ l, (compar a b < 0 ↔ 0 < compar b a)) ∧
  (∀ a ∈ l, ∀ b ∈ l, ∀ c ∈ l, compar a b ≤ 0 → compar b c ≤ 0 → compar a c ≤ 0)

/-- Contract of ISO C for `qsort`: with a consistent comparison function the array is
rearranged into ascending order according to it.  The order of elements that compare equal is
left unspecified, and nothing is promised for an inconsistent comparison function. -/
def QsortSpec (qsort : QsortFn) : Prop :=
  ∀ (α : Type) (l : List α) (compar : α → α → Int), Consistent compar l →
    (qsort α l compar).Perm l ∧ (qsort α l compar).Pairwise (fun a b => compar a b ≤ 0)

/-- Effect of `qsort(base, nmemb, size, compar)` on the memory: the first `nmemb` cells are
replaced by the rearranged elements, the other cells are untouched. -/
def sort_array {α : Type} (qsort : QsortFn) (base : Nat → α) (nmemb : Nat)
    (compar : α → α → Int) : Nat → α :=
  fun i =>
    if i < nmemb then (qsort α ((List.range nmemb).map base) compar).getD i (base i)
    else base i

/-- The entries printed under "Top 5 Largest Files" (lines 104, 116-120). -/
def top_files (qsort : QsortFn) (s : State) : List FileInfo :=
  let files := sort_array qsort s.files s.file_count compare_files
  let top := if s.file_count < 5 then s.file_count else 5
  (List.range top).map files

/-- The entries printed under "Directories with Most Files" (lines 105, 122-127). -/
def top_dirs (qsort : QsortFn) (s : State) : List DirInfo :=
  let dirs := sort_array qsort s.dirs s.dir_count compare_dirs
  let top_dirs := if s.dir_count < 5 then s.dir_count else 5
  (List.range top_dirs).map dirs

/-- What `main` writes to the report. -/
structure Report where
  file_count : Nat
  dir_count : Nat
  total_storage : Int
  top_files : List FileInfo
  top_dirs : List DirInfo
deriving DecidableEq

/-- Function `main`: `none` is exit status 1 (the report cannot be opened), otherwise the
scan of the root from the initial globals, the total, the two sorts and the report. -/
def main (qsort : QsortFn) (report_opens : Bool) (root : Option (List Entry)) : Option Report :=
  if !report_opens then none
  else
    let s := scan_directory "example_root" root init
    let total_storage := total_loop s.files s.file_count
    some ⟨s.file_count, s.dir_count, total_storage, top_files qsort s, top_dirs qsort s⟩

/-! ### Two sorting functions that meet the contract of `qsort` -/

/-- Insertion sort that keeps elements comparing equal in their original order. -/
def stable_qsort : QsortFn := fun _ l compar => l.insertionSort (fun a b => compar a b ≤ 0)

/-- Insertion sort that reverses the order of elements comparing equal. -/
def reversing_qsort : QsortFn := fun _ l compar => l.insertionSort (fun a b => compar a b < 0)

/-- The stable descending sort by a key: among equal keys the original order is kept. -/
def stable_sort_desc {α : Type} (key : α → Int) (l : List α) : List α :=
  l.insertionSort (fun a b => key b ≤ key a)

/-! ### Concrete inputs -/

/-- Scenario A: a file of 100 bytes and a subdirectory holding a file of 50 bytes. -/
def scenario_a : Option (List Entry) :=
  some [.dir "." none, .dir ".." none, .reg "a.txt" 100, .dir "sub" (some [.reg "b.txt" 50])]

/-- A root directory holding `n` regular files of one byte each, named `f0`, `f1`, ... -/
def flat_dir (n : Nat) : Option (List Entry) :=
  some ((List.range n).map (fun i => Entry.reg ("f" ++ toString i) 1))

/-- A root directory holding an empty file and a file of 3,000,000,000 bytes. -/
def big_file_dir : Option (List Entry) :=
  some [.reg "empty.bin" 0, .reg "big.bin" 3000000000]

/-- A root directory with a broken link, a socket and a subdirectory holding a broken link
and a regular file. -/
def noisy_dir : Option (List Entry) :=
  some [.nostat "dangling", .other "sock", .dir "sub" (some [.nostat "gone", .reg "b.txt" 50])]

/-- A root directory with two subdirectories, each holding one regular file. -/
def tie_dir : Option (List Entry) :=
  some [.dir "a" (some [.reg "x" 1]), .dir "b" (some [.reg "y" 1])]

/-- A chain of `n` nested directories, each called by 255 letters `d`, around `inner`. -/
def nest : Nat → List Entry → List Entry
  | 0, inner => inner
  | n + 1, inner => [.dir (String.mk (List.replicate 255 'd')) (some (nest n inner))]

/-- The files of the deep directory: 7, 5 and 9 bytes. -/
def deep_files : List Entry :=
  [.reg "zz_longer_name" 7, .reg "ab" 5, .reg "abcdef" 9]

/-- A directory tree whose deepest directory has a path of 4092 characters (the root, 15
directories of 255 letters and one of 239 letters) and holds three regular files. -/
def deep_dir : Option (List Entry) :=
  some (nest 15 [.dir (String.mk (List.replicate 239 'd')) (some deep_files)])

/-- Globals whose file collection is already full while no directory is recorded yet. -/
def full_files : State := ⟨init.files, init.dirs, MAX_FILES, 0⟩

/-- The state `t` respects the capacities, and agrees with `s0` on every cell at or beyond
the capacity of `files` and of `dirs`. -/
def Within (s0 t : State) : Prop :=
  t.file_count ≤ MAX_FILES ∧ t.dir_count ≤ MAX_DIRS ∧
  (∀ i, MAX_FILES ≤ i → t.files i = s0.files i) ∧ (∀ i, MAX_DIRS ≤ i → t.dirs i = s0.dirs i)

/-- The collections of `t` are those of `s` followed by the file records `fs` and the
directory records `ds`, as far as the capacities allow. -/
def Extends (s t : State) (fs : List FileInfo) (ds : List DirInfo) : Prop :=
  files_list t = cap_append MAX_FILES (files_list s) fs ∧
  dirs_list t = cap_append MAX_DIRS (dirs_list s) ds

end FsReport

namespace CreateFs

/-! ## Constants (`CREATE-FS.C`, lines 14-20) -/

def ROOT_DIR : String := "example_root"
def DIRS_L1 : Nat := 2
def DIRS_L2 : Nat := 2
def DIRS_L3 : Nat := 2
def FILES_PER_DIR : Nat := 2
def LINES_PER_FILE : Int := 10
def MAX_PATH : Nat := 4096

/-- The answers the program gets from outside during one run: whether `mkdir` succeeds on an
absent path, whether `fopen(path, "w")` succeeds, whether the `fprintf` issued on the file
`path` after `k` bytes succeeds, the formatted local time at which the file `path` is opened,
the successive values of `rand()`, and the indeterminate initial bytes of the local array
`word`. -/
structure Env where
  mkdir_ok : String → Bool
  fopen_ok : String → Bool
  fprintf_ok : String → Nat → Bool
  now : String → String
  rand : Nat → Nat
  garbage : Nat → Nat

/-- What the run changes: the paths for which `access(path, F_OK)` answers 0, the bytes handed
to the stream of each file opened for writing, and the number of `rand()` calls made. -/
structure World where
  present : String → Bool
  written : String → Option (List Nat)
  rand_calls : Nat

/-- Function `make_dir_if_needed`: 0 when the path is already there, else the outcome of
`mkdir`, 0 on success (the path is there from then on) and -1 on failure. -/
def make_dir_if_needed (env : Env) (path : String) (w : World) : Int × World :=
  if w.present path then (0, w)
  else if !env.mkdir_ok path then (-1, w)
  else (0, { w with present := Function.update w.present path true })

/-! ## Content generation (lines 34-85)

Bytes are natural numbers: 97 is `a`, 32 the space, 10 the line feed, 0 the terminator. -/

/-- Locals of `create_random_text_file` together with the state of `rand()`: the number of
`rand()` calls made, the array `word`, the bytes handed to the stream, `bytes_written` and
`line_count`. -/
structure Gen where
  calls : Nat
  word : Nat → Nat
  out : List Nat
  bytes_written : Int
  line_count : Int

/-- The loop `for (i = 0; i < len; ++i) buf[i] = 'a' + (rand() % 26)`, with `k` iterations
left and the index at `i`. -/
def letters_loop (env : Env) : Nat → Nat → Gen → Gen
  | 0, _, g => g
  | k + 1, i, g =>
    letters_loop env k (i + 1)
      { g with word := Function.update g.word i (97 + env.rand g.calls % 26),
               calls := g.calls + 1 }

/-- Function `gen_random_word(buf, maxw)` on the array `word`. -/
def gen_random_word (env : Env) (maxw : Nat) (g : Gen) : Gen :=
  let len := env.rand g.calls % maxw + 1
  let g1 := letters_loop env len 0 { g with calls := g.calls + 1 }
  { g1 with word := Function.update g1.word len 0 }

/-- The bytes of the C string starting at index `i`, reading at most `k` cells. -/
def c_str_from (buf : Nat → Nat) : Nat → Nat → List Nat
  | 0, _ => []
  | k + 1, i => if buf i = 0 then [] else buf i :: c_str_from buf k (i + 1)

/-- The C string held by the 64-byte array `word`: what `fprintf(f, "%s", word)` prints. -/
def c_str (buf : Nat → Nat) : List Nat := c_str_from buf 64 0

/-- The loop over the words of one line (lines 64-73), with `k` iterations left and the
index at `w`.  The result is `Except.error` when `fprintf` reports a failure, that is when the
function returns -1 from inside the loop. -/
def words_loop (env : Env) (filepath : String) (words_in_line : Nat) :
    Nat → Nat → Gen → Except Gen Gen
  | 0, _, g => .ok g
  | k + 1, w, g =>
    let g1 := gen_random_word env 10 g
    if !env.fprintf_ok filepath g1.out.length then .error g1
    else
      let n : Int := (c_str g1.word).length
      let g2 := { g1 with out := g1.out ++ c_str g1.word,
                          bytes_written := g1.bytes_written + n }
      let g3 :=
        if (w : Int) < (words_in_line : Int) - 1 then
          { g2 with out := g2.out ++ [32], bytes_written := g2.bytes_written + 1 }
        else g2
      words_loop env filepath words_in_line k (w + 1) g3

/-- The loop over the lines (lines 62-77), with `k` iterations left. -/
def lines_loop (env : Env) (filepath : String) : Nat → Gen → Except Gen Gen
  | 0, g => .ok g
  | k + 1, g =>
    let words_in_line := env.rand g.calls % 8 + 1
    match words_loop env filepath words_in_line words_in_line 0
        { g with calls := g.calls + 1 } with
    | .error g1 => .error g1
    | .ok g1 =>
      lines_loop env filepath k
        { g1 with out := g1.out ++ [10],
                  bytes_written := g1.bytes_written + 1,
                  line_count := g1.line_count + 1 }

/-- The world after the file at `filepath` was opened for writing and received the bytes of
`g`. -/
def close_file (w : World) (filepath : String) (g : Gen) : World :=
  { present := Function.update w.present filepath true,
    written := Function.update w.written filepath (some g.out),
    rand_calls := g.calls }

/-- Function `create_random_text_file`.  The first component is `none` when it returns -1 and
`some (bytes, lines, created_time)` when it returns 0, with the values stored through
`out_bytes`, `out_lines` and `created_time_str`. -/
def create_random_text_file (env : Env) (filepath : String) (lines : Int) (w : World) :
    Option (Int × Int × String) × World :=
  if !env.fopen_ok filepath then (none, w)
  else
    match lines_loop env filepath lines.toNat ⟨w.rand_calls, env.garbage, [], 0, 0⟩ with
    | .error g => (none, close_file w filepath g)
    | .ok g => (some (g.bytes_written, g.line_count, env.now filepath), close_file w filepath g)

/-! ## The populating loops of `main` (lines 87-160) -/

/-- One row of `summary.csv`. -/
structure Row where
  file_path : String
  size_bytes : Int
  line_count : Int
  creation_time : String
deriving DecidableEq

/-- Result of `snprintf(buf, MAX_PATH, ...)`: the text, cut to `MAX_PATH - 1` characters. -/
def snprintf (text : String) : String := String.mk (text.data.take (MAX_PATH - 1))

/-- Path built with the format `"%s/dir_lN_%d"`, `N` being the level. -/
def dir_path (parent : String) (level idx : Nat) : String :=
  snprintf (parent ++ "/dir_l" ++ toString level ++ "_" ++ toString idx)

/-- Path built with the format `"%s/file_lN_%d_%d.txt"`, `N` being the level. -/
def file_path (dir : String) (level idx fidx : Nat) : String :=
  snprintf (dir ++ "/file_l" ++ toString level ++ "_" ++ toString idx ++ "_" ++
    toString fidx ++ ".txt")

/-- The loop `for (fidx = 1; fidx <= FILES_PER_DIR; ++fidx)` creating the files of one
directory, with `k` iterations left; a row is appended for each file created. -/
def files_loop (env : Env) (dir : String) (level idx : Nat) :
    Nat → Nat → List Row × World → List Row × World
  | 0, _, acc => acc
  | k + 1, fidx, acc =>
    let r := create_random_text_file env (file_path dir level idx fidx) LINES_PER_FILE acc.2
    match r.1 with
    | some res =>
      files_loop env dir level idx k (fidx + 1)
        (acc.1 ++ [⟨file_path dir level idx fidx, res.1, res.2.1, res.2.2⟩], r.2)
    | none => files_loop env dir level idx k (fidx + 1) (acc.1, r.2)

/-- The loop over the level 3 directories of one level 2 directory (lines 140-153). -/
def loop_l3 (env : Env) (path_l2 : String) : Nat → Nat → List Row × World → List Row × World
  | 0, _, acc => acc
  | n + 1, k, acc =>
    let path_l3 := dir_path path_l2 3 k
    let m := make_dir_if_needed env path_l3 acc.2
    if m.1 ≠ 0 then loop_l3 env path_l2 n (k + 1) (acc.1, m.2)
    else loop_l3 env path_l2 n (k + 1) (files_loop env path_l3 3 k FILES_PER_DIR 1 (acc.1, m.2))

/-- The loop over the level 2 directories of one level 1 directory (lines 125-154). -/
def loop_l2 (env : Env) (path_l1 : String) : Nat → Nat → List Row × World → List Row × World
  | 0, _, acc => acc
  | n + 1, j, acc =>
    let path_l2 := dir_path path_l1 2 j
    let m := make_dir_if_needed env path_l2 acc.2
    if m.1 ≠ 0 then loop_l2 env path_l1 n (j + 1) (acc.1, m.2)
    else
      loop_l2 env path_l1 n (j + 1)
        (loop_l3 env path_l2 DIRS_L3 1
          (files_loop env path_l2 2 j FILES_PER_DIR 1 (acc.1, m.2)))

/-- The loop over the level 1 directories (lines 110-155). -/
def loop_l1 (env : Env) : Nat → Nat → List Row × World → List Row × World
  | 0, _, acc => acc
  | n + 1, i, acc =>
    let path_l1 := dir_path ROOT_DIR 1 i
    let m := make_dir_if_needed env path_l1 acc.2
    if m.1 ≠ 0 then loop_l1 env n (i + 1) (acc.1, m.2)
    else
      loop_l1 env n (i + 1)
        (loop_l2 env path_l1 DIRS_L2 1
          (files_loop env path_l1 1 i FILES_PER_DIR 1 (acc.1, m.2)))

/-- Function `main`: the exit status, the rows written to `summary.csv` after its header, and
the world at exit. -/
def main (env : Env) (w : World) : Int × List Row × World :=
  if !env.fopen_ok "summary.csv" then (1, [], w)
  else
    let m := make_dir_if_needed env ROOT_DIR
      { w with present := Function.update w.present "summary.csv" true }
    if m.1 ≠ 0 then (1, [], m.2)
    else
      let r := loop_l1 env DIRS_L1 1 ([], m.2)
      (0, r.1, r.2)

/-! ### Concrete inputs -/

/-- An environment in which every directory creation and every write succeeds; `rand()`
returns 0, 7, 14, ... -/
def env_ok : Env :=
  ⟨fun _ => true, fun _ => true, fun _ _ => true, fun _ => "2024-01-01 00:00:00",
   fun i => 7 * i, fun _ => 0⟩

/-- An empty working directory. -/
def empty_world : World := ⟨fun _ => false, fun _ => none, 0⟩

/-! ### The text of a file, from its words -/

/-- The words of one line, written with one space (byte 32) between consecutive words. -/
def render_words : List (List Nat) → List Nat
  | [] => []
  | [x] => x
  | x :: y :: l => x ++ [32] ++ render_words (y :: l)

/-- A line: its words with separating spaces, then one line feed (byte 10). -/
def render_line (l : List (List Nat)) : List Nat := render_words l ++ [10]

/-- A text: its lines one after the other. -/
def render_text : List (List (List Nat)) → List Nat
  | [] => []
  | l :: t => render_line l ++ render_text t

/-- Bytes of a line: the lengths of its words, one byte per separating space, one byte for
the line terminator. -/
def line_bytes (l : List (List Nat)) : Int :=
  ((l.map List.length).sum : Nat) + ((l.length - 1 : Nat) : Int) + 1

/-- Bytes of a text: the sum over its lines. -/
def text_bytes : List (List (List Nat)) → Int
  | [] => 0
  | l :: t => line_bytes l + text_bytes t

/-! ### The order of the manifest -/

/-- Paths of the files that the loop of one directory creates, in order. -/
def files_in_dir (dir : String) (level idx : Nat) : List String :=
  (List.range' 1 FILES_PER_DIR).map (file_path dir level idx)

/-- Paths created below one level 2 directory by the loop over level 3. -/
def paths_l3 (path_l2 : String) : List String :=
  (List.range' 1 DIRS_L3).flatMap fun k => files_in_dir (dir_path path_l2 3 k) 3 k

/-- Paths created below one level 1 directory by the loop over level 2. -/
def paths_l2 (path_l1 : String) : List String :=
  (List.range' 1 DIRS_L2).flatMap fun j =>
    files_in_dir (dir_path path_l1 2 j) 2 j ++ paths_l3 (dir_path path_l1 2 j)

/-- Paths created by the loop over level 1 when nothing fails. -/
def paths_l1 : List String :=
  (List.range' 1 DIRS_L1).flatMap fun i =>
    files_in_dir (dir_path ROOT_DIR 1 i) 1 i ++ paths_l2 (dir_path ROOT_DIR 1 i)

/-- The depth-first, files-before-subdirectories enumeration in the words of the
specification: for each `i` the files `example_root/dir_l1_i/file_l1_i_f.txt`, then for each
`j` the files `.../dir_l2_j/file_l2_j_f.txt`, then for each `k` the files
`.../dir_l3_k/file_l3_k_f.txt`. -/
def manifest_paths : List String :=
  (List.range' 1 DIRS_L1).flatMap fun i =>
    let d1 := "example_root/dir_l1_" ++ toString i
    (List.range' 1 FILES_PER_DIR).map
        (fun f => d1 ++ "/file_l1_" ++ toString i ++ "_" ++ toString f ++ ".txt") ++
      (List.range' 1 DIRS_L2).flatMap fun j =>
        let d2 := d1 ++ "/dir_l2_" ++ toString j
        (List.range' 1 FILES_PER_DIR).map
            (fun f => d2 ++ "/file_l2_" ++ toString j ++ "_" ++ toString f ++ ".txt") ++
          (List.range' 1 DIRS_L3).flatMap fun k =>
            let d3 := d2 ++ "/dir_l3_" ++ toString k
            (List.range' 1 FILES_PER_DIR).map
              (fun f => d3 ++ "/file_l3_" ++ toString k ++ "_" ++ toString f ++ ".txt")

/-- The 28 paths of the enumeration, written out. -/
def manifest_paths_listed : List String :=
  ["example_root/dir_l1_1/file_l1_1_1.txt",
   "example_root/dir_l1_1/file_l1_1_2.txt",
   "example_root/dir_l1_1/dir_l2_1/file_l2_1_1.txt",
   "example_root/dir_l1_1/dir_l2_1/file_l2_1_2.txt",
   "example_root/dir_l1_1/dir_l2_1/dir_l3_1/file_l3_1_1.txt",
   "example_root/dir_l1_1/dir_l2_1/dir_l3_1/file_l3_1_2.txt",
   "example_root/dir_l1_1/dir_l2_1/dir_l3_2/file_l3_2_1.txt",
   "example_root/dir_l1_1/dir_l2_1/dir_l3_2/file_l3_2_2.txt",
   "example_root/dir_l1_1/dir_l2_2/file_l2_2_1.txt",
   "example_root/dir_l1_1/dir_l2_2/file_l2_2_2.txt",
   "example_root/dir_l1_1/dir_l2_2/dir_l3_1/file_l3_1_1.txt",
   "example_root/dir_l1_1/dir_l2_2/dir_l3_1/file_l3_1_2.txt",
   "example_root/dir_l1_1/dir_l2_2/dir_l3_2/file_l3_2_1.txt",
   "example_root/dir_l1_1/dir_l2_2/dir_l3_2/file_l3_2_2.txt",
   "example_root/dir_l1_2/file_l1_2_1.txt",
   "example_root/dir_l1_2/file_l1_2_2.txt",
   "example_root/dir_l1_2/dir_l2_1/file_l2_1_1.txt",
   "example_root/dir_l1_2/dir_l2_1/file_l2_1_2.txt",
   "example_root/dir_l1_2/dir_l2_1/dir_l3_1/file_l3_1_1.txt",
   "example_root/dir_l1_2/dir_l2_1/dir_l3_1/file_l3_1_2.txt",
   "example_root/dir_l1_2/dir_l2_1/dir_l3_2/file_l3_2_1.txt",
   "example_root/dir_l1_2/dir_l2_1/dir_l3_2/file_l3_2_2.txt",
   "example_root/dir_l1_2/dir_l2_2/file_l2_2_1.txt",
   "example_root/dir_l1_2/dir_l2_2/file_l2_2_2.txt",
   "example_root/dir_l1_2/dir_l2_2/dir_l3_1/file_l3_1_1.txt",
   "example_root/dir_l1_2/dir_l2_2/dir_l3_1/file_l3_1_2.txt",
   "example_root/dir_l1_2/dir_l2_2/dir_l3_2/file_l3_2_1.txt",
   "example_root/dir_l1_2/dir_l2_2/dir_l3_2/file_l3_2_2.txt"]

/-- The all-success environment, except that `mkdir` fails on `example_root/dir_l1_1`. -/
def env_l1_1_fails : Env :=
  { env_ok with mkdir_ok := fun p => decide (p ≠ "example_root/dir_l1_1") }

/-- A word: between 1 and 10 bytes, all of them lower-case letters (`a` is 97, `z` is 122). -/
def is_word (x : List Nat) : Prop :=
  1 ≤ x.length ∧ x.length ≤ 10 ∧ ∀ b ∈ x, 97 ≤ b ∧ b ≤ 122

/-- The words of a line: between 1 and 8 words. -/
def is_line (l : List (List Nat)) : Prop :=
  1 ≤ l.length ∧ l.length ≤ 8 ∧ ∀ x ∈ l, is_word x

end CreateFs

/-! # Theorems: the scanner -/

namespace FsReport

/-! ## Bounded collections -/

theorem cap_append_nil {α : Type} (cap : Nat) (l : List α) : cap_append cap l [] = l := by
  simp [cap_append]

theorem cap_append_assoc {α : Type} (cap : Nat) (l xs ys : List α) :
    cap_append cap (cap_append cap l xs) ys = cap_append cap l (xs ++ ys) := by
  unfold cap_append
  rw [List.take_append_eq_append_take, List.append_assoc]
  congr 2
  by_cases h : xs.length ≤ cap - l.length
  · rw [List.take_of_length_le h]
    simp only [List.length_append]
    congr 1
    omega
  · have h1 : (l ++ List.take (cap - l.length) xs).length = l.length + (cap - l.length) := by
      simp only [List.length_append, List.length_take]
      omega
    rw [h1]
    have h2 : cap - (l.length + (cap - l.length)) = 0 := by omega
    have h3 : cap - l.length - xs.length = 0 := by omega
    rw [h2, h3]

theorem cap_append_singleton {α : Type} (cap : Nat) (l : List α) (x : α) :
    cap_append cap l [x] = if l.length < cap then l ++ [x] else l := by
  unfold cap_append
  split
  · have h : cap - l.length = (cap - l.length - 1) + 1 := by omega
    rw [h, List.take_succ_cons]
    simp
  · have h : cap - l.length = 0 := by omega
    simp [h]

theorem range_map_update {α : Type} (f : Nat → α) (n : Nat) (v : α) :
    (List.range (n + 1)).map (Function.update f n v) = (List.range n).map f ++ [v] := by
  rw [List.range_succ, List.map_append]
  congr 1
  · apply List.map_congr_left
    intro i hi
    have : i ≠ n := by
      have := List.mem_range.mp hi
      omega
    simp [Function.update, this]
  · simp

/-! ## The two guarded stores -/

theorem store_file_eq (s : State) (p : String) (z : Int) :
    store_file s p z =
      if s.file_count < MAX_FILES then
        ⟨Function.update s.files s.file_count ⟨p, z⟩, s.dirs, s.file_count + 1, s.dir_count⟩
      else s := by
  unfold store_file
  split
  · simp [incr_file_count, set_file_size, set_file_path]
  · rfl

theorem store_dir_eq (s : State) (p : String) (c : Int) :
    store_dir s p c =
      if s.dir_count < MAX_DIRS then
        ⟨s.files, Function.update s.dirs s.dir_count ⟨p, c⟩, s.file_count, s.dir_count + 1⟩
      else s := by
  unfold store_dir
  split
  · simp [incr_dir_count, set_dir_files, set_dir_path]
  · rfl

theorem files_list_length (s : State) : (files_list s).length = s.file_count := by
  simp [files_list]

theorem dirs_list_length (s : State) : (dirs_list s).length = s.dir_count := by
  simp [dirs_list]

theorem extends_refl (s : State) : Extends s s [] [] := by
  simp [Extends, cap_append_nil]

theorem extends_trans {s t u : State} {fs gs : List FileInfo} {ds es : List DirInfo}
    (h1 : Extends s t fs ds) (h2 : Extends t u gs es) : Extends s u (fs ++ gs) (ds ++ es) := by
  obtain ⟨a1, b1⟩ := h1
  obtain ⟨a2, b2⟩ := h2
  constructor
  · rw [a2, a1, cap_append_assoc]
  · rw [b2, b1, cap_append_assoc]

theorem extends_store_file (s : State) (p : String) (z : Int) :
    Extends s (store_file s p z) [⟨p, z⟩] [] := by
  constructor
  · rw [cap_append_singleton, files_list_length, store_file_eq]
    split
    · simp only [files_list]
      exact range_map_update _ _ _
    · rfl
  · rw [cap_append_nil, store_file_eq]
    split <;> rfl

theorem extends_store_dir (s : State) (p : String) (c : Int) :
    Extends s (store_dir s p c) [] [⟨p, c⟩] := by
  constructor
  · rw [cap_append_nil, store_dir_eq]
    split <;> rfl
  · rw [cap_append_singleton, dirs_list_length, store_dir_eq]
    split
    · simp only [dirs_list]
      exact range_map_update _ _ _
    · rfl

/-! ## What a scan appends to the collections -/

theorem all_files_entry_dots (path : String) (e : Entry)
    (h : e.d_name = "." ∨ e.d_name = "..") : all_files_entry path e = [] := by
  cases e <;> simp_all [all_files_entry, Entry.d_name]

theorem all_dirs_entry_dots (path : String) (e : Entry)
    (h : e.d_name = "." ∨ e.d_name = "..") : all_dirs_entry path e = [] := by
  cases e <;> simp_all [all_dirs_entry, Entry.d_name]

theorem direct_file_dots (e : Entry)
    (h : e.d_name = "." ∨ e.d_name = "..") : direct_file e = 0 := by
  cases e <;> simp_all [direct_file, Entry.d_name]

theorem reachable_size_entry_dots (e : Entry)
    (h : e.d_name = "." ∨ e.d_name = "..") : reachable_size_entry e = 0 := by
  cases e <;> simp_all [reachable_size_entry, Entry.d_name]

/-- A scan appends, as far as the capacities allow, the reachable regular files in
traversal order and the records of the opened directories in post-order; the loop adds to
`local_file_count` the number of direct regular files. -/
theorem scan_extends (path : String) (d : Option (List Entry)) (s : State) :
    Extends s (scan_directory path d s) (all_files path d)
      ((all_dirs path d).map dir_record) := by
  apply scan_directory.induct
    (fun path d s => Extends s (scan_directory path d s) (all_files path d)
      ((all_dirs path d).map dir_record))
    (fun path es s n => Extends s (scan_loop path es s n).1 (all_files_list path es)
        ((all_dirs_list path es).map dir_record) ∧
      (scan_loop path es s n).2 = n + direct_files es)
    (fun path e s n => Extends s (scan_entry path e s n).1 (all_files_entry path e)
        ((all_dirs_entry path e).map dir_record) ∧
      (scan_entry path e s n).2 = n + direct_file e)
  · intro path e s n h
    rw [all_files_entry_dots path e h, all_dirs_entry_dots path e h, direct_file_dots e h]
    unfold scan_entry
    simp only [h, if_true]
    exact ⟨extends_refl s, by simp⟩
  · intro path s n nm h
    unfold scan_entry
    simp only [h, if_false]
    simp only [all_files_entry, all_dirs_entry, direct_file]
    exact ⟨extends_refl s, by simp⟩
  · intro path s n nm listing h ih
    unfold scan_entry
    simp only [h, if_false]
    simp only [Entry.d_name] at h
    simp only [all_files_entry, all_dirs_entry, direct_file, h, if_false]
    exact ⟨ih, by simp⟩
  · intro path s n nm sz h
    unfold scan_entry
    simp only [h, if_false]
    simp only [Entry.d_name] at h
    simp only [all_files_entry, all_dirs_entry, direct_file, h, if_false]
    exact ⟨extends_store_file s _ _, by simp⟩
  · intro path s n nm h
    unfold scan_entry
    simp only [h, if_false]
    simp only [all_files_entry, all_dirs_entry, direct_file]
    exact ⟨extends_refl s, by simp⟩
  · intro path s
    simp only [scan_directory, all_files, all_dirs]
    exact extends_refl s
  · intro path es s ih
    simp only [scan_directory, all_files, all_dirs]
    have h := extends_trans ih.1 (extends_store_dir (scan_loop path es s 0).1 path
      (scan_loop path es s 0).2)
    simpa [dir_record, ih.2] using h
  · intro path s n
    simp only [scan_loop, all_files_list, all_dirs_list, direct_files]
    exact ⟨extends_refl s, by simp⟩
  · intro path e es s n r ih1 ih2
    simp only [scan_loop, all_files_list, all_dirs_list, direct_files]
    refine ⟨?_, ?_⟩
    · have h := extends_trans ih1.1 ih2.1
      simpa using h
    · rw [ih2.2, ih1.2]
      ring

/-! ## The total computed by `main` -/

theorem wrap64_add_left (a b : Int) : wrap64 (wrap64 a + b) = wrap64 (a + b) := by
  unfold wrap64
  omega

theorem wrap64_of_range (x : Int) (h1 : -9223372036854775808 ≤ x)
    (h2 : x < 9223372036854775808) : wrap64 x = x := by
  unfold wrap64
  omega

theorem total_loop_eq (f : Nat → FileInfo) (n : Nat) :
    total_loop f n = wrap64 (((List.range n).map f).map FileInfo.size).sum := by
  induction n with
  | zero => simp [total_loop, wrap64]
  | succ n ih =>
    rw [total_loop, ih, wrap64_add_left, List.range_succ]
    simp

theorem reachable_size_eq (path : String) (d : Option (List Entry)) :
    reachable_size d = ((all_files path d).map FileInfo.size).sum := by
  apply all_files.induct
    (fun path d => reachable_size d = ((all_files path d).map FileInfo.size).sum)
    (fun path es => reachable_size_list es = ((all_files_list path es).map FileInfo.size).sum)
    (fun path e => reachable_size_entry e = ((all_files_entry path e).map FileInfo.size).sum)
  · intro path n
    simp [reachable_size_entry, all_files_entry]
  · intro path n listing h
    simp [reachable_size_entry, all_files_entry, h]
  · intro path n listing h ih
    simp only [reachable_size_entry, all_files_entry, h, if_false]
    exact ih
  · intro path n sz h
    simp [reachable_size_entry, all_files_entry, h]
  · intro path n sz h
    simp [reachable_size_entry, all_files_entry, h]
  · intro path n
    simp [reachable_size_entry, all_files_entry]
  · intro path
    simp [reachable_size, all_files]
  · intro path es ih
    simpa [reachable_size, all_files] using ih
  · intro path
    simp [reachable_size_list, all_files_list]
  · intro path e es ih1 ih2
    simp [reachable_size_list, all_files_list, ih1, ih2]

theorem files_list_init : files_list init = [] := by
  simp [files_list, init]

theorem dirs_list_init : dirs_list init = [] := by
  simp [dirs_list, init]

/-- From the initial globals the file collection is the first `MAX_FILES` reachable regular
files, in traversal order. -/
theorem files_list_scan_init (path : String) (d : Option (List Entry)) :
    files_list (scan_directory path d init) = (all_files path d).take MAX_FILES := by
  rw [(scan_extends path d init).1, files_list_init]
  simp [cap_append]

/-- From the initial globals the directory collection is the first `MAX_DIRS` directory
records, in post-order. -/
theorem dirs_list_scan_init (path : String) (d : Option (List Entry)) :
    dirs_list (scan_directory path d init) =
      ((all_dirs path d).map dir_record).take MAX_DIRS := by
  rw [(scan_extends path d init).2, dirs_list_init]
  simp [cap_append]

/-- The total that `main` reports: the wrapped sum of the sizes of the first `MAX_FILES`
reachable regular files. -/
theorem main_total_storage (qsort : QsortFn) (root : Option (List Entry)) :
    (main qsort true root).map Report.total_storage =
      some (wrap64 (((all_files "example_root" root).take MAX_FILES).map FileInfo.size).sum) := by
  simp only [main, Bool.not_true, Bool.false_eq_true, if_false, Option.map_some']
  rw [total_loop_eq]
  have h := files_list_scan_init "example_root" root
  unfold files_list at h
  rw [h]

/-! ### A directory with more regular files than `MAX_FILES` -/

theorem flat_name_ne (i : Nat) : ¬ ("f" ++ toString i = "." ∨ "f" ++ toString i = "..") := by
  have h : ∀ t : String, ("f" ++ t).data = 'f' :: t.data := by
    intro t
    simp [String.data_append]
  intro hc
  rcases hc with hc | hc
  · have := congrArg String.data hc
    rw [h] at this
    simp at this
  · have := congrArg String.data hc
    rw [h] at this
    simp at this

theorem flat_sizes (path : String) (l : List Nat) :
    ((all_files_list path (l.map (fun i => Entry.reg ("f" ++ toString i) 1))).map
      FileInfo.size) = List.replicate l.length 1 := by
  induction l with
  | nil => simp [all_files_list]
  | cons a l ih =>
    simp only [List.map_cons, all_files_list, all_files_entry, flat_name_ne, if_false,
      List.map_append, ih, List.length_cons, List.replicate_succ]
    rfl

theorem flat_dir_sizes (path : String) (n : Nat) :
    (all_files path (flat_dir n)).map FileInfo.size = List.replicate n 1 := by
  simp [flat_dir, all_files, flat_sizes]

/-! ## Trees whose paths are not cut -/

/-- When no built path is cut, the answers the scanner gets are those of the directory tree
itself: every entry is reported with its own kind and size. -/
theorem observed_of_fits (path : String) (d : Option (List Entry))
    (h : fits path d = true) : observed path d = some d := by
  revert h
  apply fits.induct
    (fun path d => fits path d = true → observed path d = some d)
    (fun path es => fits_list path es = true →
      ∀ siblings, observed_list path siblings es = some es)
    (fun path e => fits_entry path e = true →
      ∀ siblings, observed_entry path siblings e = some e)
  · intro path n hn _ siblings
    simp [observed_entry, hn]
  · intro path n hn h siblings
    simp only [fits_entry, hn, if_false, decide_eq_true_eq] at h
    simp only [observed_entry, hn, h, if_true, if_false]
  · intro path n listing hn _ siblings
    simp [observed_entry, hn]
  · intro path n listing hn ih h siblings
    simp only [fits_entry, hn, if_false, Bool.and_eq_true, decide_eq_true_eq] at h
    simp only [observed_entry, hn, h.1, if_true, if_false, ih h.2, Option.map_some']
  · intro path n sz hn _ siblings
    simp [observed_entry, hn]
  · intro path n sz hn h siblings
    simp only [fits_entry, hn, if_false, decide_eq_true_eq] at h
    simp only [observed_entry, hn, h, if_true, if_false]
  · intro path n hn _ siblings
    simp [observed_entry, hn]
  · intro path n hn h siblings
    simp only [fits_entry, hn, if_false, decide_eq_true_eq] at h
    simp only [observed_entry, hn, h, if_true, if_false]
  · intro path _
    simp [observed]
  · intro path es ih h
    simp only [fits] at h
    simp [observed, ih h es]
  · intro path _ siblings
    simp [observed_list]
  · intro path e es ih1 ih2 h siblings
    simp only [fits_list, Bool.and_eq_true] at h
    simp [observed_list, ih1 h.1 siblings, ih2 h.2 siblings]

/-! ## C1: the reported total -/

/-- C1, as stated, fails twice.  On a root directory holding 1001 regular files of one byte
each the reachable files sum to 1001 bytes, while `main` reports a total of 1000, because only
the first `MAX_FILES` files are recorded.  On the tree `deep_dir`, whose deepest directory has
a path of 4092 characters and holds files of 7, 5 and 9 bytes, the paths built for two of the
three files are cut: the answers the scanner gets make `main` report 10 where the reachable
files sum to 21. -/
theorem total_storage_misses_dropped_files :
    (main stable_qsort true (flat_dir 1001)).map Report.total_storage = some 1000 ∧
    reachable_size (flat_dir 1001) = 1001 ∧
    (main stable_qsort true (flat_dir 1001)).map Report.total_storage ≠
      some (reachable_size (flat_dir 1001)) ∧
    (observed "example_root" deep_dir).map
      (fun answers => (main stable_qsort true answers).map Report.total_storage) =
        some (some 10) ∧
    reachable_size deep_dir = 21 ∧
    (all_files "example_root" deep_dir).length = 3 := by
  have h1 : (main stable_qsort true (flat_dir 1001)).map Report.total_storage = some 1000 := by
    rw [main_total_storage, List.map_take, flat_dir_sizes, List.take_replicate,
      List.sum_replicate]
    decide
  have h2 : reachable_size (flat_dir 1001) = 1001 := by
    rw [reachable_size_eq "example_root", flat_dir_sizes, List.sum_replicate]
    decide
  refine ⟨h1, h2, ?_, by decide!, by decide!, by decide!⟩
  rw [h1, h2]
  decide

/-- C1, amended: for every directory tree in which every path the scanner builds has fewer
than `MAX_PATH` characters, which has at most `MAX_FILES` reachable regular files and whose
total size fits a 64-bit `long`, the answers the scanner gets are those of the tree itself and
the `total_storage` that `main` computes from the initial globals equals the total size of the
reachable regular files, computed by direct recursion. -/
theorem total_storage_eq_reachable_size (qsort : QsortFn) (root : Option (List Entry))
    (hfit : fits "example_root" root = true)
    (hcap : (all_files "example_root" root).length ≤ MAX_FILES)
    (hlo : -9223372036854775808 ≤ reachable_size root)
    (hhi : reachable_size root < 9223372036854775808) :
    ∃ answers, observed "example_root" root = some answers ∧
      (main qsort true answers).map Report.total_storage = some (reachable_size root) := by
  refine ⟨root, observed_of_fits "example_root" root hfit, ?_⟩
  rw [main_total_storage, List.take_of_length_le hcap, ← reachable_size_eq "example_root" root,
    wrap64_of_range _ hlo hhi]

/-- Scenario A: one file of 100 bytes and a subdirectory with one file of 50 bytes give a
total of 150. -/
theorem total_storage_eq_reachable_size_witness :
    fits "example_root" scenario_a = true ∧
    (all_files "example_root" scenario_a).length ≤ MAX_FILES ∧
    ∃ answers, observed "example_root" scenario_a = some answers ∧
      (main stable_qsort true answers).map Report.total_storage = some 150 :=
  ⟨by decide, by decide,
   total_storage_eq_reachable_size stable_qsort scenario_a (by decide) (by decide) (by decide)
     (by decide)⟩

/-! ## C2: the count stored in a directory record -/

theorem direct_files_nonneg (es : List Entry) : 0 ≤ direct_files es := by
  induction es with
  | nil => simp [direct_files]
  | cons e es ih =>
    have h : 0 ≤ direct_file e := by
      cases e <;> simp only [direct_file] <;> omega
    simp only [direct_files]
    omega

/-- A record appended by a scan is the record of an opened directory of the tree. -/
theorem dir_record_of_index (path : String) (d : Option (List Entry)) (s : State)
    (i : Nat) (h1 : s.dir_count ≤ i) (h2 : i < (scan_directory path d s).dir_count) :
    ∃ x ∈ all_dirs path d, (scan_directory path d s).dirs i = ⟨x.1, direct_files x.2⟩ := by
  have hd := (scan_extends path d s).2
  have hi : i < (dirs_list (scan_directory path d s)).length := by
    rw [dirs_list_length]
    exact h2
  have e1 : (dirs_list (scan_directory path d s))[i] = (scan_directory path d s).dirs i := by
    simp [dirs_list]
  have hi2 : i < (cap_append MAX_DIRS (dirs_list s) ((all_dirs path d).map dir_record)).length := by
    rw [← hd]
    exact hi
  have e2 : (dirs_list (scan_directory path d s))[i] =
      (cap_append MAX_DIRS (dirs_list s) ((all_dirs path d).map dir_record))[i] := by
    simp only [hd]
  have hlen : (dirs_list s).length ≤ i := by
    rw [dirs_list_length]
    exact h1
  have e3 : (cap_append MAX_DIRS (dirs_list s) ((all_dirs path d).map dir_record))[i] ∈
      (all_dirs path d).map dir_record := by
    unfold cap_append
    rw [List.getElem_append_right hlen]
    exact List.mem_of_mem_take (List.getElem_mem _)
  rw [← e2, e1] at e3
  obtain ⟨x, hx, hxe⟩ := List.mem_map.mp e3
  exact ⟨x, hx, hxe.symm⟩

/-- C2, as stated, fails: in the tree `deep_dir` the deepest directory has a path of 4092
characters and three regular files as direct children, but the paths built for two of them are
cut, and the record that the scan appends first carries the path of that directory with a
`file_count` of 2. -/
theorem dir_record_miscounts_on_cut_path :
    (all_dirs "example_root" deep_dir).head?.map (fun x => (x.1.length, direct_files x.2)) =
      some (4092, 3) ∧
    (observed "example_root" deep_dir).map
      (fun answers => (scan_directory "example_root" answers init).dirs 0) =
        (all_dirs "example_root" deep_dir).head?.map (fun x => (⟨x.1, 2⟩ : DirInfo)) := by
  refine ⟨by decide!, by decide!⟩

/-- C2, amended: for every directory tree in which every path the scanner builds has fewer
than `MAX_PATH` characters and every directory holds fewer than `2^31` regular files, the
answers the scanner gets are those of the tree itself, and every directory record that
`scan_directory` appends (index `i` from the old `dir_count` up to the new one) is the record
of an opened directory of the tree: it carries that directory's path and exactly the number of
regular files among its direct children, a non-negative `int`.  The count does not depend on
the globals, so files dropped from a full `files` still count, and files in subdirectories
do not. -/
theorem dir_record_counts_direct_files (path : String) (d : Option (List Entry)) (s : State)
    (i : Nat) (hfit : fits path d = true)
    (hint : ∀ x ∈ all_dirs path d, direct_files x.2 < 2147483648)
    (h1 : s.dir_count ≤ i) (h2 : i < (scan_directory path d s).dir_count) :
    observed path d = some d ∧
    ∃ x ∈ all_dirs path d, (scan_directory path d s).dirs i = ⟨x.1, direct_files x.2⟩ ∧
      0 ≤ ((scan_directory path d s).dirs i).file_count ∧
      ((scan_directory path d s).dirs i).file_count < 2147483648 := by
  refine ⟨observed_of_fits path d hfit, ?_⟩
  obtain ⟨x, hx, hxe⟩ := dir_record_of_index path d s i h1 h2
  refine ⟨x, hx, hxe, ?_, ?_⟩
  · rw [hxe]
    exact direct_files_nonneg x.2
  · rw [hxe]
    exact hint x hx

/-- Scenario A scanned with `files` already full: the first record appended is the one of
the subdirectory, and it counts the file whose own record was dropped. -/
theorem dir_record_counts_direct_files_witness :
    (scan_directory "example_root" scenario_a full_files).file_count = MAX_FILES ∧
    (scan_directory "example_root" scenario_a full_files).dirs 0 = ⟨"example_root/sub", 1⟩ ∧
    ∃ x ∈ all_dirs "example_root" scenario_a,
      (scan_directory "example_root" scenario_a full_files).dirs 0 = ⟨x.1, direct_files x.2⟩ ∧
      0 ≤ ((scan_directory "example_root" scenario_a full_files).dirs 0).file_count ∧
      ((scan_directory "example_root" scenario_a full_files).dirs 0).file_count < 2147483648 :=
  ⟨by decide, by decide,
   (dir_record_counts_direct_files "example_root" scenario_a full_files 0 (by decide)
     (by decide) (by decide) (by decide)).2⟩

/-! ## C8: a root that cannot be opened -/

/-- C8: when `opendir` fails, `scan_directory` returns the globals unchanged, and the run
started from the initial globals reports no file, no directory, a total of 0 and two empty
top-5 lists. -/
theorem unopenable_root_yields_nothing :
    (∀ (path : String) (s : State), scan_directory path none s = s) ∧
    ∀ qsort : QsortFn, main qsort true none = some ⟨0, 0, 0, [], []⟩ := by
  constructor
  · intro path s
    rfl
  · intro qsort
    rfl

/-! ## C7: the capacity invariant along the whole scan -/

theorem getLastD_append_eq {α : Type} (a b : List α) (s : α) :
    (a ++ b).getLastD s = b.getLastD (a.getLastD s) := by
  simp only [List.getLastD_eq_getLast?, List.getLast?_append]
  cases b.getLast? <;> simp

theorem getLastD_mem_or {α : Type} (l : List α) (s : α) :
    l.getLastD s = s ∨ l.getLastD s ∈ l := by
  cases l with
  | nil => left; rfl
  | cons a l =>
    right
    rw [List.getLastD_cons]
    rcases List.eq_nil_or_concat l with h | ⟨l2, b, h⟩
    · simp [h]
    · simp [h]

theorem store_file_last (s : State) (p : String) (z : Int) :
    store_file s p z = (store_file_trace s p z).getLastD s := by
  unfold store_file store_file_trace
  split <;> rfl

theorem store_dir_last (s : State) (p : String) (c : Int) :
    store_dir s p c = (store_dir_trace s p c).getLastD s := by
  unfold store_dir store_dir_trace
  split <;> rfl

theorem within_store_file_trace (s0 s : State) (p : String) (z : Int) (h : Within s0 s) :
    ∀ t ∈ store_file_trace s p z, Within s0 t := by
  obtain ⟨hf, hd, hfm, hdm⟩ := h
  unfold store_file_trace
  split
  · rename_i hlt
    have hne : ∀ i, MAX_FILES ≤ i → i ≠ s.file_count := by
      intro i hi
      omega
    intro t ht
    simp only [List.mem_cons, List.mem_singleton, List.not_mem_nil, or_false] at ht
    rcases ht with rfl | rfl | rfl
    · refine ⟨hf, hd, ?_, hdm⟩
      intro i hi
      simp [set_file_path, Function.update, hne i hi, hfm i hi]
    · refine ⟨hf, hd, ?_, hdm⟩
      intro i hi
      simp [set_file_size, set_file_path, Function.update, hne i hi, hfm i hi]
    · refine ⟨?_, hd, ?_, hdm⟩
      · simp only [incr_file_count, set_file_size, set_file_path]
        omega
      · intro i hi
        simp [incr_file_count, set_file_size, set_file_path, Function.update, hne i hi,
          hfm i hi]
  · intro t ht
    simp at ht

theorem within_store_dir_trace (s0 s : State) (p : String) (c : Int) (h : Within s0 s) :
    ∀ t ∈ store_dir_trace s p c, Within s0 t := by
  obtain ⟨hf, hd, hfm, hdm⟩ := h
  unfold store_dir_trace
  split
  · rename_i hlt
    have hne : ∀ i, MAX_DIRS ≤ i → i ≠ s.dir_count := by
      intro i hi
      omega
    intro t ht
    simp only [List.mem_cons, List.mem_singleton, List.not_mem_nil, or_false] at ht
    rcases ht with rfl | rfl | rfl
    · refine ⟨hf, hd, hfm, ?_⟩
      intro i hi
      simp [set_dir_path, Function.update, hne i hi, hdm i hi]
    · refine ⟨hf, hd, hfm, ?_⟩
      intro i hi
      simp [set_dir_files, set_dir_path, Function.update, hne i hi, hdm i hi]
    · refine ⟨hf, ?_, hfm, ?_⟩
      · simp only [incr_dir_count, set_dir_files, set_dir_path]
        omega
      · intro i hi
        simp [incr_dir_count, set_dir_files, set_dir_path, Function.update, hne i hi,
          hdm i hi]
  · intro t ht
    simp at ht

theorem within_last (s0 s : State) (l : List State) (h : Within s0 s)
    (hl : ∀ t ∈ l, Within s0 t) : Within s0 (l.getLastD s) := by
  rcases getLastD_mem_or l s with e | e
  · rw [e]
    exact h
  · exact hl _ e

/-- The result of a scan is the last state of its trace, and every state of the trace
respects the capacities and leaves the memory beyond them as it was. -/
theorem scan_trace_within (path : String) (d : Option (List Entry)) (s : State) :
    scan_directory path d s = (scan_directory_trace path d s).getLastD s ∧
    ∀ s0, Within s0 s → ∀ t ∈ scan_directory_trace path d s, Within s0 t := by
  apply scan_directory.induct
    (fun path d s => scan_directory path d s = (scan_directory_trace path d s).getLastD s ∧
      ∀ s0, Within s0 s → ∀ t ∈ scan_directory_trace path d s, Within s0 t)
    (fun path es s n => (scan_loop path es s n).1 = (scan_loop_trace path es s n).getLastD s ∧
      ∀ s0, Within s0 s → ∀ t ∈ scan_loop_trace path es s n, Within s0 t)
    (fun path e s n => (scan_entry path e s n).1 = (scan_entry_trace path e s n).getLastD s ∧
      ∀ s0, Within s0 s → ∀ t ∈ scan_entry_trace path e s n, Within s0 t)
  · intro path e s n h
    unfold scan_entry scan_entry_trace
    simp [h]
  · intro path s n nm h
    unfold scan_entry scan_entry_trace
    simp [h]
  · intro path s n nm listing h ih
    unfold scan_entry scan_entry_trace
    simp only [h, if_false]
    exact ih
  · intro path s n nm sz h
    unfold scan_entry scan_entry_trace
    simp only [h, if_false]
    exact ⟨store_file_last s _ _, fun s0 h0 => within_store_file_trace s0 s _ _ h0⟩
  · intro path s n nm h
    unfold scan_entry scan_entry_trace
    simp [h]
  · intro path s
    simp [scan_directory, scan_directory_trace]
  · intro path es s ih
    simp only [scan_directory, scan_directory_trace]
    refine ⟨?_, ?_⟩
    · rw [getLastD_append_eq, ← ih.1, ← store_dir_last]
    · intro s0 h0 t ht
      rcases List.mem_append.mp ht with ht | ht
      · exact ih.2 s0 h0 t ht
      · have hw : Within s0 (scan_loop path es s 0).1 := by
          rw [ih.1]
          exact within_last s0 s _ h0 (ih.2 s0 h0)
        exact within_store_dir_trace s0 _ _ _ hw t ht
  · intro path s n
    simp [scan_loop, scan_loop_trace]
  · intro path e es s n r ih1 ih2
    simp only [scan_loop, scan_loop_trace]
    refine ⟨?_, ?_⟩
    · rw [getLastD_append_eq, ← ih1.1]
      exact ih2.1
    · intro s0 h0 t ht
      rcases List.mem_append.mp ht with ht | ht
      · exact ih1.2 s0 h0 t ht
      · have hw : Within s0 (scan_entry path e s n).1 := by
          rw [ih1.1]
          exact within_last s0 s _ h0 (ih1.2 s0 h0)
        exact ih2.2 s0 hw t ht

/-- C7: started from globals with `file_count ≤ MAX_FILES` and `dir_count ≤ MAX_DIRS`, every
state of the globals during a scan (after each assignment, nested calls included) and the final
state, which is the last of them, keep `file_count ≤ MAX_FILES` and `dir_count ≤ MAX_DIRS`,
and no cell of `files` at index `MAX_FILES` or more, nor of `dirs` at index `MAX_DIRS` or more,
is ever changed. -/
theorem capacity_invariant (path : String) (d : Option (List Entry)) (s : State)
    (hf : s.file_count ≤ MAX_FILES) (hd : s.dir_count ≤ MAX_DIRS) :
    scan_directory path d s = (scan_directory_trace path d s).getLastD s ∧
    ∀ t ∈ s :: scan_directory_trace path d s,
      t.file_count ≤ MAX_FILES ∧ t.dir_count ≤ MAX_DIRS ∧
      (∀ i, MAX_FILES ≤ i → t.files i = s.files i) ∧
      (∀ i, MAX_DIRS ≤ i → t.dirs i = s.dirs i) := by
  have hs : Within s s := ⟨hf, hd, fun _ _ => rfl, fun _ _ => rfl⟩
  refine ⟨(scan_trace_within path d s).1, ?_⟩
  intro t ht
  rcases List.mem_cons.mp ht with rfl | ht
  · exact hs
  · exact (scan_trace_within path d s).2 s hs t ht

/-- Scenario A from the initial globals: the scan goes through 12 assignments to globals. -/
theorem capacity_invariant_witness :
    (scan_directory_trace "example_root" scenario_a init).length = 12 ∧
    ∀ t ∈ init :: scan_directory_trace "example_root" scenario_a init,
      t.file_count ≤ MAX_FILES ∧ t.dir_count ≤ MAX_DIRS ∧
      (∀ i, MAX_FILES ≤ i → t.files i = init.files i) ∧
      (∀ i, MAX_DIRS ≤ i → t.dirs i = init.dirs i) :=
  ⟨by decide,
   (capacity_invariant "example_root" scenario_a init (by decide) (by decide)).2⟩

/-! ## Sorting: the contract of `qsort` and two functions meeting it -/

theorem pairwise_orderedInsert {α : Type} (r r2 : α → α → Prop) [DecidableRel r] (L : List α)
    (H1 : ∀ a ∈ L, ∀ b ∈ L, r a b → r2 a b)
    (H2 : ∀ a ∈ L, ∀ b ∈ L, ¬ r a b → r2 b a)
    (H3 : ∀ a ∈ L, ∀ b ∈ L, ∀ c ∈ L, r2 a b → r2 b c → r2 a c)
    (a : α) (ha : a ∈ L) (l : List α) (hl : ∀ x ∈ l, x ∈ L) (hp : l.Pairwise r2) :
    (l.orderedInsert r a).Pairwise r2 := by
  induction l with
  | nil => simp
  | cons b l ih =>
    have hb : b ∈ L := hl b (List.mem_cons_self _ _)
    have hl2 : ∀ x ∈ l, x ∈ L := fun x hx => hl x (List.mem_cons_of_mem _ hx)
    obtain ⟨hbl, hpl⟩ := List.pairwise_cons.mp hp
    simp only [List.orderedInsert]
    split
    · rename_i hab
      refine List.pairwise_cons.mpr ⟨?_, hp⟩
      intro x hx
      rcases List.mem_cons.mp hx with rfl | hx
      · exact H1 a ha x hb hab
      · exact H3 a ha b hb x (hl2 x hx) (H1 a ha b hb hab) (hbl x hx)
    · rename_i hab
      refine List.pairwise_cons.mpr ⟨?_, ih hl2 hpl⟩
      intro x hx
      have hx2 : x ∈ a :: l := (List.perm_orderedInsert r a l).mem_iff.mp hx
      rcases List.mem_cons.mp hx2 with rfl | hx2
      · exact H2 x ha b hb hab
      · exact hbl x hx2

theorem pairwise_insertionSort {α : Type} (r r2 : α → α → Prop) [DecidableRel r] (L : List α)
    (H1 : ∀ a ∈ L, ∀ b ∈ L, r a b → r2 a b)
    (H2 : ∀ a ∈ L, ∀ b ∈ L, ¬ r a b → r2 b a)
    (H3 : ∀ a ∈ L, ∀ b ∈ L, ∀ c ∈ L, r2 a b → r2 b c → r2 a c)
    (l : List α) (hl : ∀ x ∈ l, x ∈ L) : (l.insertionSort r).Pairwise r2 := by
  induction l with
  | nil => simp
  | cons a l ih =>
    have ha : a ∈ L := hl a (List.mem_cons_self _ _)
    have hl2 : ∀ x ∈ l, x ∈ L := fun x hx => hl x (List.mem_cons_of_mem _ hx)
    simp only [List.insertionSort]
    apply pairwise_orderedInsert r r2 L H1 H2 H3 a ha _ _ (ih hl2)
    intro x hx
    exact hl2 x ((List.perm_insertionSort r l).mem_iff.mp hx)

/-- The stable insertion sort meets the contract of `qsort`. -/
theorem stable_qsort_spec : QsortSpec stable_qsort := by
  intro α l compar hc
  refine ⟨List.perm_insertionSort _ l, ?_⟩
  apply pairwise_insertionSort (fun a b => compar a b ≤ 0) (fun a b => compar a b ≤ 0) l
    (fun _ _ _ _ h => h) _ hc.2 l (fun _ h => h)
  intro a ha b hb hab
  have := hc.1 b hb a ha
  omega

/-- The tie-reversing insertion sort meets the contract of `qsort` as well. -/
theorem reversing_qsort_spec : QsortSpec reversing_qsort := by
  intro α l compar hc
  refine ⟨List.perm_insertionSort _ l, ?_⟩
  apply pairwise_insertionSort (fun a b => compar a b < 0) (fun a b => compar a b ≤ 0) l
    _ _ hc.2 l (fun _ h => h)
  · intro a _ b _ hab
    exact le_of_lt hab
  · intro a ha b hb hab
    have := hc.1 a ha b hb
    omega

/-! ## The entries `main` prints after sorting -/

theorem sort_array_take {α : Type} (qsort : QsortFn) (base : Nat → α) (n : Nat)
    (compar : α → α → Int) (k : Nat) (hk : k ≤ n)
    (hlen : (qsort α ((List.range n).map base) compar).length = n) :
    (List.range k).map (sort_array qsort base n compar) =
      (qsort α ((List.range n).map base) compar).take k := by
  apply List.ext_getElem
  · simp only [List.length_map, List.length_range, List.length_take, hlen]
    omega
  · intro i h1 h2
    have hi : i < k := by simpa using h1
    have hin : i < n := by omega
    simp only [List.getElem_map, List.getElem_range, List.getElem_take, sort_array, hin,
      if_true]
    rw [List.getD_eq_getElem _ _ (by rw [hlen]; exact hin)]

theorem take_top {α : Type} (l : List α) (n : Nat) (h : l.length = n) :
    l.take (if n < 5 then n else 5) = l.take 5 := by
  split
  · rw [List.take_of_length_le (by omega), List.take_of_length_le (by omega)]
  · rfl

/-- With a `qsort` meeting its contract and a comparison function that is consistent on the
collection, the printed entries are the first five of the rearranged collection. -/
theorem top_eq_take {α : Type} (qsort : QsortFn) (hq : QsortSpec qsort) (base : Nat → α)
    (n : Nat) (compar : α → α → Int) (hc : Consistent compar ((List.range n).map base)) :
    (List.range (if n < 5 then n else 5)).map (sort_array qsort base n compar) =
      (qsort α ((List.range n).map base) compar).take 5 := by
  have hlen : (qsort α ((List.range n).map base) compar).length = n := by
    rw [(hq α _ compar hc).1.length_eq]
    simp
  rw [sort_array_take qsort base n compar _ (by split <;> omega) hlen, take_top _ n hlen]

/-- Ranking by a key: when the comparison function is consistent on the collection and orders
it by descending key, the printed list is sorted by non-increasing key, has `min 5 n` entries,
and together with the entries left out it is a rearrangement of the collection in which no
entry left out has a larger key than a printed one. -/
theorem ranked {α : Type} (qsort : QsortFn) (hq : QsortSpec qsort) (base : Nat → α)
    (n : Nat) (compar : α → α → Int) (key : α → Int)
    (hc : Consistent compar ((List.range n).map base))
    (hkey : ∀ a ∈ (List.range n).map base, ∀ b ∈ (List.range n).map base,
      compar a b ≤ 0 → key b ≤ key a) :
    ((List.range (if n < 5 then n else 5)).map (sort_array qsort base n compar)).Pairwise
      (fun a b => key b ≤ key a) ∧
    ((List.range (if n < 5 then n else 5)).map (sort_array qsort base n compar)).length =
      min 5 n ∧
    ∃ rest, ((List.range (if n < 5 then n else 5)).map (sort_array qsort base n compar)
        ++ rest).Perm ((List.range n).map base) ∧
      ∀ a ∈ (List.range (if n < 5 then n else 5)).map (sort_array qsort base n compar),
        ∀ b ∈ rest, key b ≤ key a := by
  rw [top_eq_take qsort hq base n compar hc]
  obtain ⟨hperm, hsorted⟩ := hq α _ compar hc
  have hs : (qsort α ((List.range n).map base) compar).Pairwise (fun a b => key b ≤ key a) := by
    refine List.Pairwise.imp_of_mem ?_ hsorted
    intro a b ha hb hab
    exact hkey a (hperm.mem_iff.mp ha) b (hperm.mem_iff.mp hb) hab
  rw [← List.take_append_drop 5 (qsort α ((List.range n).map base) compar)] at hs
  obtain ⟨h1, _, h3⟩ := List.pairwise_append.mp hs
  refine ⟨h1, ?_, (qsort α ((List.range n).map base) compar).drop 5, ?_, h3⟩
  · rw [List.length_take, hperm.length_eq]
    simp
  · rw [List.take_append_drop]
    exact hperm

/-! ## The comparators -/

theorem compare_dirs_eq (a b : DirInfo)
    (ha : 0 ≤ a.file_count ∧ a.file_count < 2147483648)
    (hb : 0 ≤ b.file_count ∧ b.file_count < 2147483648) :
    compare_dirs a b = b.file_count - a.file_count := by
  simp only [compare_dirs, wrap32]
  omega

theorem compare_files_eq (a b : FileInfo)
    (h1 : a.size - b.size < 2147483648) (h2 : b.size - a.size < 2147483648) :
    compare_files a b = b.size - a.size := by
  simp only [compare_files, wrap32, wrap64]
  omega

theorem compare_dirs_consistent (l : List DirInfo)
    (h : ∀ a ∈ l, 0 ≤ a.file_count ∧ a.file_count < 2147483648) :
    Consistent compare_dirs l := by
  constructor
  · intro a ha b hb
    rw [compare_dirs_eq a b (h a ha) (h b hb), compare_dirs_eq b a (h b hb) (h a ha)]
    omega
  · intro a ha b hb c hc
    rw [compare_dirs_eq a b (h a ha) (h b hb), compare_dirs_eq b c (h b hb) (h c hc),
      compare_dirs_eq a c (h a ha) (h c hc)]
    omega

theorem compare_files_consistent (l : List FileInfo)
    (h : ∀ a ∈ l, ∀ b ∈ l, a.size - b.size < 2147483648) :
    Consistent compare_files l := by
  constructor
  · intro a ha b hb
    rw [compare_files_eq a b (h a ha b hb) (h b hb a ha),
      compare_files_eq b a (h b hb a ha) (h a ha b hb)]
    omega
  · intro a ha b hb c hc
    rw [compare_files_eq a b (h a ha b hb) (h b hb a ha),
      compare_files_eq b c (h b hb c hc) (h c hc b hb),
      compare_files_eq a c (h a ha c hc) (h c hc a ha)]
    omega

/-! ## C3: `compare_files` -/

/-- C3 fails on the code: the `long` difference is narrowed to `int`.  For a file of
3,000,000,000 bytes against an empty one the result is positive where the claim wants it
negative, and negative where the claim wants it positive; for an empty file against one of
4,294,967,296 bytes the result is 0 although the sizes differ. -/
theorem compare_files_narrows :
    compare_files ⟨"example_root/big.bin", 3000000000⟩ ⟨"example_root/empty.bin", 0⟩
      = 1294967296 ∧
    compare_files ⟨"example_root/empty.bin", 0⟩ ⟨"example_root/big.bin", 3000000000⟩
      = -1294967296 ∧
    compare_files ⟨"example_root/empty.bin", 0⟩ ⟨"example_root/huge.bin", 4294967296⟩ = 0 := by
  decide

/-! ## C4: the top files -/

theorem files_list_big_file_dir :
    files_list (scan_directory "example_root" big_file_dir init) =
      [⟨"example_root/empty.bin", 0⟩, ⟨"example_root/big.bin", 3000000000⟩] := by
  decide

/-- On an empty file followed by a file of 3,000,000,000 bytes `compare_files` is consistent
and orders the empty file first, so every `qsort` meeting its contract leaves them so. -/
theorem main_big_file_dir (qsort : QsortFn) (hq : QsortSpec qsort) :
    (main qsort true big_file_dir).map Report.top_files =
      some [⟨"example_root/empty.bin", 0⟩, ⟨"example_root/big.bin", 3000000000⟩] := by
  have hl := files_list_big_file_dir
  have hc : Consistent compare_files
      [⟨"example_root/empty.bin", 0⟩, ⟨"example_root/big.bin", 3000000000⟩] := by
    unfold Consistent
    decide
  simp only [main, Bool.not_true, Bool.false_eq_true, if_false, Option.map_some', top_files]
  unfold files_list at hl
  rw [top_eq_take qsort hq _ _ _ (by rw [hl]; exact hc), hl]
  obtain ⟨hperm, hsorted⟩ := hq _ _ _ hc
  generalize qsort FileInfo
    [⟨"example_root/empty.bin", 0⟩, ⟨"example_root/big.bin", 3000000000⟩] compare_files = out
    at hperm hsorted
  have hlen := hperm.length_eq
  match out, hlen with
  | [x, y], _ =>
    have hx : x ∈ [(⟨"example_root/empty.bin", 0⟩ : FileInfo),
        ⟨"example_root/big.bin", 3000000000⟩] := hperm.mem_iff.mp (by simp)
    have hy : y ∈ [(⟨"example_root/empty.bin", 0⟩ : FileInfo),
        ⟨"example_root/big.bin", 3000000000⟩] := hperm.mem_iff.mp (by simp)
    have he : (⟨"example_root/empty.bin", 0⟩ : FileInfo) ∈ [x, y] :=
      hperm.mem_iff.mpr (by simp)
    have hb : (⟨"example_root/big.bin", 3000000000⟩ : FileInfo) ∈ [x, y] :=
      hperm.mem_iff.mpr (by simp)
    have hxy : compare_files x y ≤ 0 := by
      simpa using hsorted
    simp only [List.mem_cons, List.mem_singleton, List.not_mem_nil, or_false] at hx hy he hb
    rcases hx with rfl | rfl <;> rcases hy with rfl | rfl
    · exact absurd hb (by decide)
    · rfl
    · exact absurd hxy (by decide)
    · exact absurd he (by decide)

/-- C4 fails on the code: with any `qsort` that meets its contract, the scan of a directory
holding an empty file and a file of 3,000,000,000 bytes makes `main` print the empty file
first, so the printed list is sorted increasing by size. -/
theorem top_files_big_file_dir (qsort : QsortFn) (hq : QsortSpec qsort) :
    (main qsort true big_file_dir).map Report.top_files =
      some [⟨"example_root/empty.bin", 0⟩, ⟨"example_root/big.bin", 3000000000⟩] ∧
    ¬ List.Pairwise (fun a b : FileInfo => b.size ≤ a.size)
      [⟨"example_root/empty.bin", 0⟩, ⟨"example_root/big.bin", 3000000000⟩] :=
  ⟨main_big_file_dir qsort hq, by decide⟩

/-- The stable insertion sort is one `qsort` for which the empty file is printed first. -/
theorem top_files_big_file_dir_witness :
    QsortSpec stable_qsort ∧
    (main stable_qsort true big_file_dir).map Report.top_files =
      some [⟨"example_root/empty.bin", 0⟩, ⟨"example_root/big.bin", 3000000000⟩] :=
  ⟨stable_qsort_spec, (top_files_big_file_dir stable_qsort stable_qsort_spec).1⟩

/-! ## C5: the top directories -/

/-- Ranking of directory records whose counts are non-negative `int` values. -/
theorem top_dirs_ranked_of_counts (qsort : QsortFn) (hq : QsortSpec qsort) (s : State)
    (hcounts : ∀ i, i < s.dir_count →
      0 ≤ (s.dirs i).file_count ∧ (s.dirs i).file_count < 2147483648) :
    (top_dirs qsort s).Pairwise (fun a b => b.file_count ≤ a.file_count) ∧
    (top_dirs qsort s).length = min 5 s.dir_count ∧
    ∃ rest, (top_dirs qsort s ++ rest).Perm (dirs_list s) ∧
      ∀ a ∈ top_dirs qsort s, ∀ b ∈ rest, b.file_count ≤ a.file_count := by
  have hr : ∀ a ∈ (List.range s.dir_count).map s.dirs,
      0 ≤ a.file_count ∧ a.file_count < 2147483648 := by
    intro a ha
    obtain ⟨i, hi, rfl⟩ := List.mem_map.mp ha
    exact hcounts i (List.mem_range.mp hi)
  apply ranked qsort hq s.dirs s.dir_count compare_dirs DirInfo.file_count
    (compare_dirs_consistent _ hr)
  intro a ha b hb hab
  rw [compare_dirs_eq a b (hr a ha) (hr b hb)] at hab
  omega

/-- The counts a scan from the initial globals stores are those of directories of the
tree. -/
theorem scan_init_counts (path : String) (d : Option (List Entry)) (i : Nat)
    (hi : i < (scan_directory path d init).dir_count) :
    ∃ x ∈ all_dirs path d, ((scan_directory path d init).dirs i).file_count = direct_files x.2 := by
  obtain ⟨x, hx, hxe⟩ := dir_record_of_index path d init i (Nat.zero_le _) hi
  exact ⟨x, hx, by rw [hxe]⟩

/-- C5: for the directory collection that the scan of any tree produces from the initial
globals (every directory holding fewer than `2^31` regular files, so that its count is an
`int`), and a `qsort` meeting its contract, the directory list that `main` prints is sorted by
non-increasing `file_count`, has exactly `min 5 dir_count` entries, and with the records left
out it is a rearrangement of the directory collection in which no record left out has a larger
`file_count` than a printed one. -/
theorem top_dirs_ranked (qsort : QsortFn) (hq : QsortSpec qsort) (root : Option (List Entry))
    (hint : ∀ x ∈ all_dirs "example_root" root, direct_files x.2 < 2147483648) :
    (main qsort true root).map Report.top_dirs =
      some (top_dirs qsort (scan_directory "example_root" root init)) ∧
    (top_dirs qsort (scan_directory "example_root" root init)).Pairwise
      (fun a b => b.file_count ≤ a.file_count) ∧
    (top_dirs qsort (scan_directory "example_root" root init)).length =
      min 5 (scan_directory "example_root" root init).dir_count ∧
    ∃ rest, (top_dirs qsort (scan_directory "example_root" root init) ++ rest).Perm
        (dirs_list (scan_directory "example_root" root init)) ∧
      ∀ a ∈ top_dirs qsort (scan_directory "example_root" root init),
        ∀ b ∈ rest, b.file_count ≤ a.file_count := by
  refine ⟨rfl, ?_⟩
  apply top_dirs_ranked_of_counts qsort hq
  intro i hi
  obtain ⟨x, hx, hxe⟩ := scan_init_counts "example_root" root i hi
  rw [hxe]
  exact ⟨direct_files_nonneg _, hint x hx⟩

/-- Scenario A with the stable insertion sort: both directories are printed. -/
theorem top_dirs_ranked_witness :
    QsortSpec stable_qsort ∧
    (top_dirs stable_qsort (scan_directory "example_root" scenario_a init)).length = min 5 2 :=
  ⟨stable_qsort_spec,
   (top_dirs_ranked stable_qsort stable_qsort_spec scenario_a (by decide)).2.2.1⟩

/-! ## C6: the ranking against the stable descending sort -/

theorem stable_sort_desc_sorted {α : Type} (key : α → Int) (l : List α) :
    (stable_sort_desc key l).Pairwise (fun a b => key b ≤ key a) := by
  haveI : IsTotal α (fun a b => key b ≤ key a) := ⟨fun a b => le_total (key b) (key a)⟩
  haveI : IsTrans α (fun a b => key b ≤ key a) := ⟨fun _ _ _ h1 h2 => le_trans h2 h1⟩
  exact List.sorted_insertionSort (fun a b => key b ≤ key a) l

theorem stable_sort_desc_perm {α : Type} (key : α → Int) (l : List α) :
    (stable_sort_desc key l).Perm l :=
  List.perm_insertionSort _ l

/-- Two rearrangements of one collection that are both sorted by non-increasing key show the
same sequence of keys. -/
theorem keys_unique {α : Type} (key : α → Int) (l1 l2 : List α) (hp : l1.Perm l2)
    (h1 : l1.Pairwise (fun a b => key b ≤ key a))
    (h2 : l2.Pairwise (fun a b => key b ≤ key a)) : l1.map key = l2.map key := by
  haveI : IsAntisymm Int (fun x y => y ≤ x) := ⟨fun _ _ h1 h2 => le_antisymm h2 h1⟩
  have e1 : (l1.map key).Pairwise (fun x y => y ≤ x) := List.pairwise_map.mpr h1
  have e2 : (l2.map key).Pairwise (fun x y => y ≤ x) := List.pairwise_map.mpr h2
  exact List.eq_of_perm_of_sorted (hp.map key) e1 e2

theorem top_keys {α : Type} (qsort : QsortFn) (hq : QsortSpec qsort) (base : Nat → α)
    (n : Nat) (compar : α → α → Int) (key : α → Int)
    (hc : Consistent compar ((List.range n).map base))
    (hkey : ∀ a ∈ (List.range n).map base, ∀ b ∈ (List.range n).map base,
      compar a b ≤ 0 → key b ≤ key a) :
    ((List.range (if n < 5 then n else 5)).map (sort_array qsort base n compar)).map key =
      ((stable_sort_desc key ((List.range n).map base)).take 5).map key := by
  rw [top_eq_take qsort hq base n compar hc]
  obtain ⟨hperm, hsorted⟩ := hq α _ compar hc
  have hs : (qsort α ((List.range n).map base) compar).Pairwise (fun a b => key b ≤ key a) := by
    refine List.Pairwise.imp_of_mem ?_ hsorted
    intro a b ha hb hab
    exact hkey a (hperm.mem_iff.mp ha) b (hperm.mem_iff.mp hb) hab
  rw [List.map_take, List.map_take]
  rw [keys_unique key _ _ (hperm.trans (stable_sort_desc_perm key _).symm) hs
    (stable_sort_desc_sorted key _)]

/-- C6 fails on the code: on an empty file followed by a file of 3,000,000,000 bytes the
stable descending sort by size puts the large file first, while `main`, with any `qsort` that
meets its contract, prints the empty file first, because `compare_files` narrows the `long`
difference to `int`. -/
theorem ranking_differs_on_big_file_dir (qsort : QsortFn) (hq : QsortSpec qsort) :
    fits "example_root" big_file_dir = true ∧
    (main qsort true big_file_dir).map Report.top_files =
      some [⟨"example_root/empty.bin", 0⟩, ⟨"example_root/big.bin", 3000000000⟩] ∧
    (stable_sort_desc FileInfo.size
        (files_list (scan_directory "example_root" big_file_dir init))).take 5 =
      [⟨"example_root/big.bin", 3000000000⟩, ⟨"example_root/empty.bin", 0⟩] :=
  ⟨by decide, main_big_file_dir qsort hq, by decide⟩

/-- The stable insertion sort is one `qsort` for which the printed list differs from the
stable descending sort. -/
theorem ranking_differs_on_big_file_dir_witness :
    QsortSpec stable_qsort ∧
    (main stable_qsort true big_file_dir).map Report.top_files =
      some [⟨"example_root/empty.bin", 0⟩, ⟨"example_root/big.bin", 3000000000⟩] :=
  ⟨stable_qsort_spec, (ranking_differs_on_big_file_dir stable_qsort stable_qsort_spec).2.1⟩

/-- With a `qsort` meeting its contract, file sizes that pairwise differ by less than `2^31`
and non-negative `int` directory counts, the sizes shown in the printed file list are, in
order, the sizes of the first `min 5 file_count` records of the stable descending sort by
size, and likewise the counts shown in the printed directory list. -/
theorem ranking_keys (qsort : QsortFn) (hq : QsortSpec qsort) (s : State)
    (hsizes : ∀ i, i < s.file_count → ∀ j, j < s.file_count →
      (s.files i).size - (s.files j).size < 2147483648)
    (hcounts : ∀ i, i < s.dir_count →
      0 ≤ (s.dirs i).file_count ∧ (s.dirs i).file_count < 2147483648) :
    (top_files qsort s).map FileInfo.size =
      ((stable_sort_desc FileInfo.size (files_list s)).take 5).map FileInfo.size ∧
    (top_dirs qsort s).map DirInfo.file_count =
      ((stable_sort_desc DirInfo.file_count (dirs_list s)).take 5).map DirInfo.file_count := by
  have hd : ∀ a ∈ (List.range s.dir_count).map s.dirs,
      0 ≤ a.file_count ∧ a.file_count < 2147483648 := by
    intro a ha
    obtain ⟨i, hi, rfl⟩ := List.mem_map.mp ha
    exact hcounts i (List.mem_range.mp hi)
  have hf : ∀ a ∈ (List.range s.file_count).map s.files,
      ∀ b ∈ (List.range s.file_count).map s.files, a.size - b.size < 2147483648 := by
    intro a ha b hb
    obtain ⟨i, hi, rfl⟩ := List.mem_map.mp ha
    obtain ⟨j, hj, rfl⟩ := List.mem_map.mp hb
    exact hsizes i (List.mem_range.mp hi) j (List.mem_range.mp hj)
  constructor
  · apply top_keys qsort hq s.files s.file_count compare_files FileInfo.size
      (compare_files_consistent _ hf)
    intro a ha b hb hab
    rw [compare_files_eq a b (hf a ha b hb) (hf b hb a ha)] at hab
    omega
  · apply top_keys qsort hq s.dirs s.dir_count compare_dirs DirInfo.file_count
      (compare_dirs_consistent _ hd)
    intro a ha b hb hab
    rw [compare_dirs_eq a b (hd a ha) (hd b hb)] at hab
    omega

/-- The two subdirectories of equal count, sorted by the tie-reversing insertion sort: the
printed counts are 1, 1, 0, as for the stable sort. -/
theorem ranking_keys_witness :
    QsortSpec reversing_qsort ∧
    (top_dirs reversing_qsort (scan_directory "example_root" tie_dir init)).map
      DirInfo.file_count = [1, 1, 0] :=
  ⟨reversing_qsort_spec,
   (ranking_keys reversing_qsort reversing_qsort_spec
      (scan_directory "example_root" tie_dir init) (by decide) (by decide)).2⟩

/-! ### The ranking under a stable library sort -/

theorem orderedInsert_congr {α : Type} (r r2 : α → α → Prop) [DecidableRel r]
    [DecidableRel r2] (a : α) (l : List α) (h : ∀ b ∈ l, (r a b ↔ r2 a b)) :
    l.orderedInsert r a = l.orderedInsert r2 a := by
  induction l with
  | nil => rfl
  | cons b l ih =>
    have hb := h b (List.mem_cons_self _ _)
    have hl := ih (fun x hx => h x (List.mem_cons_of_mem _ hx))
    simp only [List.orderedInsert]
    by_cases hab : r a b
    · rw [if_pos hab, if_pos (hb.mp hab)]
    · rw [if_neg hab, if_neg (fun h2 => hab (hb.mpr h2)), hl]

theorem insertionSort_congr {α : Type} (r r2 : α → α → Prop) [DecidableRel r]
    [DecidableRel r2] (l : List α) (h : ∀ a ∈ l, ∀ b ∈ l, (r a b ↔ r2 a b)) :
    l.insertionSort r = l.insertionSort r2 := by
  induction l with
  | nil => rfl
  | cons a l ih =>
    have hl := ih (fun x hx y hy => h x (List.mem_cons_of_mem _ hx) y (List.mem_cons_of_mem _ hy))
    simp only [List.insertionSort]
    rw [hl]
    apply orderedInsert_congr
    intro b hb
    have hb2 : b ∈ l := (List.perm_insertionSort r2 l).mem_iff.mp hb
    exact h a (List.mem_cons_self _ _) b (List.mem_cons_of_mem _ hb2)

/-- With a library sort that keeps ties in their original order (the stable insertion sort),
file sizes that pairwise differ by less than `2^31` and non-negative `int` directory counts,
the printed lists are exactly the first `min 5 n` records of the stable descending sorts: apart
from the narrowing in `compare_files`, the ranking of the claim is what the code computes. -/
theorem ranking_with_stable_qsort (s : State)
    (hsizes : ∀ i, i < s.file_count → ∀ j, j < s.file_count →
      (s.files i).size - (s.files j).size < 2147483648)
    (hcounts : ∀ i, i < s.dir_count →
      0 ≤ (s.dirs i).file_count ∧ (s.dirs i).file_count < 2147483648) :
    top_files stable_qsort s = (stable_sort_desc FileInfo.size (files_list s)).take 5 ∧
    top_dirs stable_qsort s = (stable_sort_desc DirInfo.file_count (dirs_list s)).take 5 := by
  have hd : ∀ a ∈ (List.range s.dir_count).map s.dirs,
      0 ≤ a.file_count ∧ a.file_count < 2147483648 := by
    intro a ha
    obtain ⟨i, hi, rfl⟩ := List.mem_map.mp ha
    exact hcounts i (List.mem_range.mp hi)
  have hf : ∀ a ∈ (List.range s.file_count).map s.files,
      ∀ b ∈ (List.range s.file_count).map s.files, a.size - b.size < 2147483648 := by
    intro a ha b hb
    obtain ⟨i, hi, rfl⟩ := List.mem_map.mp ha
    obtain ⟨j, hj, rfl⟩ := List.mem_map.mp hb
    exact hsizes i (List.mem_range.mp hi) j (List.mem_range.mp hj)
  constructor
  · unfold top_files
    simp only
    rw [top_eq_take stable_qsort stable_qsort_spec _ _ _ (compare_files_consistent _ hf)]
    unfold stable_qsort stable_sort_desc files_list
    congr 1
    apply insertionSort_congr
    intro a ha b hb
    rw [compare_files_eq a b (hf a ha b hb) (hf b hb a ha)]
    omega
  · unfold top_dirs
    simp only
    rw [top_eq_take stable_qsort stable_qsort_spec _ _ _ (compare_dirs_consistent _ hd)]
    unfold stable_qsort stable_sort_desc dirs_list
    congr 1
    apply insertionSort_congr
    intro a ha b hb
    rw [compare_dirs_eq a b (hd a ha) (hd b hb)]
    omega

/-! ## C14: what the collections hold after a scan -/

theorem old_files_kept (path : String) (d : Option (List Entry)) (s : State) (i : Nat)
    (hi : i < s.file_count) : (scan_directory path d s).files i = s.files i := by
  have h := (scan_extends path d s).1
  have hlen : i < (files_list s).length := by
    rw [files_list_length]
    exact hi
  have h1 : (files_list (scan_directory path d s))[i]? = (files_list s)[i]? := by
    rw [h]
    unfold cap_append
    exact List.getElem?_append_left hlen
  have hi2 : i < (scan_directory path d s).file_count := by
    have := congrArg List.length h
    simp only [cap_append, List.length_append, files_list_length] at this
    omega
  simpa [files_list, hi, hi2] using h1

theorem old_dirs_kept (path : String) (d : Option (List Entry)) (s : State) (i : Nat)
    (hi : i < s.dir_count) : (scan_directory path d s).dirs i = s.dirs i := by
  have h := (scan_extends path d s).2
  have hlen : i < (dirs_list s).length := by
    rw [dirs_list_length]
    exact hi
  have h1 : (dirs_list (scan_directory path d s))[i]? = (dirs_list s)[i]? := by
    rw [h]
    unfold cap_append
    exact List.getElem?_append_left hlen
  have hi2 : i < (scan_directory path d s).dir_count := by
    have := congrArg List.length h
    simp only [cap_append, List.length_append, dirs_list_length] at this
    omega
  simpa [dirs_list, hi, hi2] using h1

/-- When the path built for an entry is not cut it is the directory path, a slash and the
name. -/
theorem snprintf_path_of_fits (path d_name : String)
    (h : (path ++ "/" ++ d_name).length < MAX_PATH) :
    snprintf_path path d_name = path ++ "/" ++ d_name := by
  unfold snprintf_path
  rw [List.take_of_length_le]
  have : (path ++ "/" ++ d_name).data.length = (path ++ "/" ++ d_name).length := rfl
  omega

/-- C14, as stated, fails: in the tree `deep_dir` the reachable regular files have 7, 5 and 9
bytes, but two of the three paths built in the deepest directory are cut, and the file
collection after the scan holds two records, both of 5 bytes. -/
theorem collection_differs_on_cut_path :
    (all_files "example_root" deep_dir).map FileInfo.size = [7, 5, 9] ∧
    (observed "example_root" deep_dir).map
      (fun answers =>
        (files_list (scan_directory "example_root" answers init)).map FileInfo.size) =
        some [5, 5] := by
  refine ⟨by decide!, by decide!⟩

/-- C14, amended: for every directory tree in which every path the scanner builds has fewer
than `MAX_PATH` characters, the answers the scanner gets are those of the tree itself, and from
empty collections the file collection after a scan is exactly the first `min 1000 n` of the
`n` reachable regular files in depth-first traversal order (path and size of each), the
directory collection is exactly the first `min 500 m` of the `m` opened directories in
post-order, and a scan started from any globals never modifies a record that was already in a
collection. -/
theorem drop_and_continue (path : String) (d : Option (List Entry))
    (hfit : fits path d = true) :
    observed path d = some d ∧
    files_list (scan_directory path d init) =
      (all_files path d).take (min MAX_FILES (all_files path d).length) ∧
    (scan_directory path d init).file_count = min MAX_FILES (all_files path d).length ∧
    dirs_list (scan_directory path d init) =
      ((all_dirs path d).map dir_record).take (min MAX_DIRS (all_dirs path d).length) ∧
    (scan_directory path d init).dir_count = min MAX_DIRS (all_dirs path d).length ∧
    (∀ (s : State) (i : Nat), i < s.file_count → (scan_directory path d s).files i = s.files i) ∧
    (∀ (s : State) (i : Nat), i < s.dir_count → (scan_directory path d s).dirs i = s.dirs i) := by
  have hf := files_list_scan_init path d
  have hd := dirs_list_scan_init path d
  have ef : (all_files path d).take (min MAX_FILES (all_files path d).length) =
      (all_files path d).take MAX_FILES := by
    rw [List.take_eq_take]
    simp
  have ed : ((all_dirs path d).map dir_record).take (min MAX_DIRS (all_dirs path d).length) =
      ((all_dirs path d).map dir_record).take MAX_DIRS := by
    rw [List.take_eq_take]
    simp
  refine ⟨observed_of_fits path d hfit, by rw [ef, hf], ?_, by rw [ed, hd], ?_,
    fun s i hi => old_files_kept path d s i hi, fun s i hi => old_dirs_kept path d s i hi⟩
  · rw [← files_list_length, hf, List.length_take]
  · rw [← dirs_list_length, hd, List.length_take, List.length_map]

/-- Scenario A from empty collections: two file records in traversal order, two directory
records in post-order. -/
theorem drop_and_continue_witness :
    fits "example_root" scenario_a = true ∧
    files_list (scan_directory "example_root" scenario_a init) =
      [⟨"example_root/a.txt", 100⟩, ⟨"example_root/sub/b.txt", 50⟩] ∧
    dirs_list (scan_directory "example_root" scenario_a init) =
      [⟨"example_root/sub", 1⟩, ⟨"example_root", 1⟩] :=
  ⟨by decide, (drop_and_continue "example_root" scenario_a (by decide)).2.1,
   (drop_and_continue "example_root" scenario_a (by decide)).2.2.2.1⟩

/-! ## C15: post-order -/

theorem sum_direct_files (path : String) (d : Option (List Entry)) :
    (((all_dirs path d).map dir_record).map DirInfo.file_count).sum =
      ((all_files path d).length : Int) := by
  apply all_files.induct
    (fun path d => (((all_dirs path d).map dir_record).map DirInfo.file_count).sum =
      ((all_files path d).length : Int))
    (fun path es => (((all_dirs_list path es).map dir_record).map DirInfo.file_count).sum
      + direct_files es = ((all_files_list path es).length : Int))
    (fun path e => (((all_dirs_entry path e).map dir_record).map DirInfo.file_count).sum
      + direct_file e = ((all_files_entry path e).length : Int))
  · intro path n
    simp [all_dirs_entry, all_files_entry, direct_file]
  · intro path n listing h
    simp [all_dirs_entry, all_files_entry, direct_file, h]
  · intro path n listing h ih
    simp only [all_dirs_entry, all_files_entry, direct_file, h, if_false]
    rw [ih]
    simp
  · intro path n sz h
    simp [all_dirs_entry, all_files_entry, direct_file, h]
  · intro path n sz h
    simp [all_dirs_entry, all_files_entry, direct_file, h]
  · intro path n
    simp [all_dirs_entry, all_files_entry, direct_file]
  · intro path
    simp [all_dirs, all_files]
  · intro path es ih
    simp only [all_dirs, all_files, List.map_append, List.sum_append, List.map_cons,
      List.map_nil, List.sum_cons, List.sum_nil, dir_record]
    rw [← ih]
    ring
  · intro path
    simp [all_dirs_list, all_files_list, direct_files]
  · intro path e es ih1 ih2
    simp only [all_dirs_list, all_files_list, direct_files, List.map_append, List.sum_append,
      List.length_append, Nat.cast_add]
    rw [← ih1, ← ih2]
    ring

/-- C18, as stated, fails: the tree `deep_dir` has 17 directories and 3 reachable regular
files, but two of the three paths built in the deepest directory are cut, and after the scan
the `file_count` fields of the directory records sum to 2. -/
theorem counts_differ_on_cut_path :
    (all_dirs "example_root" deep_dir).length = 17 ∧
    (all_files "example_root" deep_dir).length = 3 ∧
    (observed "example_root" deep_dir).map
      (fun answers =>
        ((dirs_list (scan_directory "example_root" answers init)).map
          DirInfo.file_count).sum) = some 2 := by
  refine ⟨by decide!, by decide!, by decide!⟩

/-- C18, amended: for a directory tree with at most `MAX_DIRS` opened directories, in which
every path the scanner builds has fewer than `MAX_PATH` characters and every directory holds
fewer than `2^31` regular files, scanned from empty collections, the answers the scanner gets
are those of the tree itself, every stored `file_count` is a non-negative `int`, and the
`file_count` fields of the directory records sum to the number of reachable regular files; this
sum equals the global `file_count` when that number is at most `MAX_FILES` and is strictly
greater than the global `file_count` otherwise. -/
theorem counts_consistent (path : String) (d : Option (List Entry))
    (hfit : fits path d = true)
    (hint : ∀ x ∈ all_dirs path d, direct_files x.2 < 2147483648)
    (hd : (all_dirs path d).length ≤ MAX_DIRS) :
    observed path d = some d ∧
    (∀ r ∈ dirs_list (scan_directory path d init),
      0 ≤ r.file_count ∧ r.file_count < 2147483648) ∧
    ((dirs_list (scan_directory path d init)).map DirInfo.file_count).sum =
      ((all_files path d).length : Int) ∧
    ((all_files path d).length ≤ MAX_FILES →
      ((dirs_list (scan_directory path d init)).map DirInfo.file_count).sum =
        ((scan_directory path d init).file_count : Int)) ∧
    (MAX_FILES < (all_files path d).length →
      ((scan_directory path d init).file_count : Int) <
        ((dirs_list (scan_directory path d init)).map DirInfo.file_count).sum) := by
  have h : dirs_list (scan_directory path d init) = (all_dirs path d).map dir_record := by
    rw [dirs_list_scan_init, List.take_of_length_le]
    rw [List.length_map]
    exact hd
  have hc : (scan_directory path d init).file_count = min MAX_FILES (all_files path d).length := by
    rw [← files_list_length, files_list_scan_init, List.length_take]
  rw [h, sum_direct_files, hc]
  refine ⟨observed_of_fits path d hfit, ?_, rfl, ?_, ?_⟩
  · intro r hr
    obtain ⟨x, hx, rfl⟩ := List.mem_map.mp hr
    exact ⟨direct_files_nonneg x.2, hint x hx⟩
  · intro hle
    rw [Nat.min_eq_right hle]
  · intro hlt
    rw [Nat.min_eq_left (Nat.le_of_lt hlt)]
    exact_mod_cast hlt

/-- Scenario A: the two directory records hold 1 + 1 = 2 files, the global `file_count`. -/
theorem counts_consistent_witness :
    fits "example_root" scenario_a = true ∧
    (all_dirs "example_root" scenario_a).length ≤ MAX_DIRS ∧
    ((dirs_list (scan_directory "example_root" scenario_a init)).map DirInfo.file_count).sum =
      (2 : Int) :=
  ⟨by decide, by decide,
   (counts_consistent "example_root" scenario_a (by decide) (by decide) (by decide)).2.2.1⟩

/-! ## C19: `compare_dirs` -/

/-- C19: on directory records whose counts are non-negative 32-bit `int` values, which is what
a scan stores, the subtraction `cb - ca` stays in the range of `int`, and `compare_dirs` is
negative exactly when `a.file_count > b.file_count`, zero exactly when the counts are equal and
positive exactly when `a.file_count < b.file_count`. -/
theorem compare_dirs_three_way (a b : DirInfo)
    (ha : 0 ≤ a.file_count ∧ a.file_count < 2147483648)
    (hb : 0 ≤ b.file_count ∧ b.file_count < 2147483648) :
    (-2147483648 ≤ b.file_count - a.file_count ∧ b.file_count - a.file_count ≤ 2147483647) ∧
    compare_dirs a b = b.file_count - a.file_count ∧
    (compare_dirs a b < 0 ↔ b.file_count < a.file_count) ∧
    (compare_dirs a b = 0 ↔ a.file_count = b.file_count) ∧
    (0 < compare_dirs a b ↔ a.file_count < b.file_count) ∧
    (∀ (path : String) (d : Option (List Entry)) (i : Nat),
      i < (scan_directory path d init).dir_count →
        0 ≤ ((scan_directory path d init).dirs i).file_count) := by
  have h := compare_dirs_eq a b ha hb
  refine ⟨by omega, h, by omega, by omega, by omega, ?_⟩
  intro path d i hi
  obtain ⟨x, _, hxe⟩ := scan_init_counts path d i hi
  rw [hxe]
  exact direct_files_nonneg _

/-- A directory with 3 files against one with 7 files. -/
theorem compare_dirs_three_way_witness :
    compare_dirs ⟨"example_root/a", 3⟩ ⟨"example_root/b", 7⟩ = 4 ∧
    compare_dirs ⟨"example_root/b", 7⟩ ⟨"example_root/a", 3⟩ = -4 :=
  ⟨(compare_dirs_three_way ⟨"example_root/a", 3⟩ ⟨"example_root/b", 7⟩
      (by decide) (by decide)).2.1,
   (compare_dirs_three_way ⟨"example_root/b", 7⟩ ⟨"example_root/a", 3⟩
      (by decide) (by decide)).2.1⟩

/-! ## C16: entries that are skipped -/

theorem scan_loop_append (path : String) (l1 l2 : List Entry) (s : State) (n : Int) :
    scan_loop path (l1 ++ l2) s n =
      scan_loop path l2 (scan_loop path l1 s n).1 (scan_loop path l1 s n).2 := by
  induction l1 generalizing s n with
  | nil => simp [scan_loop]
  | cons e l1 ih =>
    simp only [List.cons_append, scan_loop]
    exact ih _ _

theorem scan_loop_singleton (path : String) (e : Entry) (s : State) (n : Int) :
    scan_loop path [e] s n = scan_entry path e s n := by
  simp [scan_loop]

theorem scan_prune (nostat other : Bool) (path : String) (d : Option (List Entry))
    (s : State) :
    scan_directory path (prune nostat other d) s = scan_directory path d s := by
  apply scan_directory.induct
    (fun path d s => scan_directory path (prune nostat other d) s = scan_directory path d s)
    (fun path es s n => scan_loop path (prune_list nostat other es) s n = scan_loop path es s n)
    (fun path e s n => scan_loop path (prune_entry nostat other e) s n = scan_entry path e s n)
  · intro path e s n h
    cases e with
    | nostat nm =>
      simp only [prune_entry]
      split
      · simp [scan_loop, scan_entry, h]
      · rw [scan_loop_singleton]
    | dir nm listing =>
      simp only [prune_entry, scan_loop_singleton]
      simp only [Entry.d_name] at h
      simp [scan_entry, Entry.d_name, h]
    | reg nm sz => simp only [prune_entry, scan_loop_singleton]
    | other nm =>
      simp only [prune_entry]
      split
      · simp [scan_loop, scan_entry, h]
      · rw [scan_loop_singleton]
  · intro path s n nm h
    simp only [prune_entry]
    split
    · simp [scan_loop, scan_entry, h]
    · rw [scan_loop_singleton]
  · intro path s n nm listing h ih
    simp only [prune_entry, scan_loop_singleton]
    unfold scan_entry
    simp only [Entry.d_name] at h
    simp only [Entry.d_name, h, if_false]
    rw [ih]
  · intro path s n nm sz h
    simp only [prune_entry, scan_loop_singleton]
  · intro path s n nm h
    simp only [prune_entry]
    split
    · simp [scan_loop, scan_entry, h]
    · rw [scan_loop_singleton]
  · intro path s
    simp [prune, scan_directory]
  · intro path es s ih
    simp only [prune, scan_directory]
    rw [ih]
  · intro path s n
    simp [prune_list, scan_loop]
  · intro path e es s n r ih1 ih2
    simp only [prune_list, scan_loop_append, ih1]
    rw [ih2]
    simp [scan_loop]

/-- C16: `scan_directory` ends in exactly the same globals (same file records, same
directory records, same counters, hence same paths, sizes, counts and order) on a tree and on
the tree from which every entry whose `stat` fails has been deleted; likewise when the entries
that are neither directories nor regular files are deleted, or both kinds. -/
theorem skipped_entries_change_nothing (path : String) (d : Option (List Entry)) (s : State) :
    scan_directory path (prune true false d) s = scan_directory path d s ∧
    scan_directory path (prune false true d) s = scan_directory path d s ∧
    scan_directory path (prune true true d) s = scan_directory path d s :=
  ⟨scan_prune true false path d s, scan_prune false true path d s,
   scan_prune true true path d s⟩

/-- A tree with a broken link, a socket and a broken link inside a subdirectory: after
deletion only the subdirectory and its regular file are left, and the scans agree. -/
theorem skipped_entries_change_nothing_witness :
    prune true true noisy_dir = some [.dir "sub" (some [.reg "b.txt" 50])] ∧
    scan_directory "example_root" (prune true true noisy_dir) init =
      scan_directory "example_root" noisy_dir init :=
  ⟨rfl, (skipped_entries_change_nothing "example_root" noisy_dir init).2.2⟩

end FsReport

/-! # Theorems: the populator -/

namespace CreateFs

/-! ## The byte counter of `create_random_text_file` -/

theorem letters_loop_frame (env : Env) (k i : Nat) (g : Gen) :
    (letters_loop env k i g).out = g.out ∧
    (letters_loop env k i g).bytes_written = g.bytes_written ∧
    (letters_loop env k i g).line_count = g.line_count := by
  induction k generalizing i g with
  | zero => simp [letters_loop]
  | succ k ih =>
    simp only [letters_loop]
    obtain ⟨h1, h2, h3⟩ := ih (i + 1)
      { g with word := Function.update g.word i (97 + env.rand g.calls % 26),
               calls := g.calls + 1 }
    exact ⟨h1, h2, h3⟩

theorem gen_random_word_frame (env : Env) (maxw : Nat) (g : Gen) :
    (gen_random_word env maxw g).out = g.out ∧
    (gen_random_word env maxw g).bytes_written = g.bytes_written ∧
    (gen_random_word env maxw g).line_count = g.line_count := by
  obtain ⟨h1, h2, h3⟩ := letters_loop_frame env (env.rand g.calls % maxw + 1) 0
    { g with calls := g.calls + 1 }
  exact ⟨h1, h2, h3⟩

/-! ## The shape of the emitted text -/

theorem words_loop_text (env : Env) (filepath : String) (words_in_line : Nat) (k w : Nat)
    (g g2 : Gen) (hk : k + w = words_in_line)
    (hr : words_loop env filepath words_in_line k w g = .ok g2) :
    ∃ ws : List (List Nat), ws.length = k ∧ g2.out = g.out ++ render_words ws ∧
      g2.bytes_written =
        g.bytes_written + ((ws.map List.length).sum : Nat) + ((k - 1 : Nat) : Int) ∧
      g2.line_count = g.line_count := by
  induction k generalizing w g with
  | zero =>
    simp only [words_loop, Except.ok.injEq] at hr
    subst hr
    exact ⟨[], rfl, by simp [render_words], by simp, rfl⟩
  | succ k ih =>
    simp only [words_loop] at hr
    split at hr
    · cases hr
    · obtain ⟨h1, h2, h3⟩ := gen_random_word_frame env 10 g
      obtain ⟨ws, hlen, hout, hbytes, hlc⟩ := ih _ _ (by omega) hr
      refine ⟨c_str (gen_random_word env 10 g).word :: ws, by simp [hlen], ?_, ?_, ?_⟩
      · rw [hout]
        cases ws with
        | nil =>
          have hk0 : k = 0 := by simpa using hlen.symm
          have hc : ¬ ((w : Int) < (words_in_line : Int) - 1) := by omega
          simp [hc, render_words, h1]
        | cons y l =>
          have hk0 : 0 < k := by
            rw [← hlen]
            simp
          have hc : (w : Int) < (words_in_line : Int) - 1 := by omega
          simp [hc, render_words, h1]
      · rw [hbytes]
        by_cases hk0 : k = 0
        · have hc : ¬ ((w : Int) < (words_in_line : Int) - 1) := by omega
          simp only [hc, if_false, h2, List.map_cons, List.sum_cons, Nat.cast_add]
          omega
        · have hc : (w : Int) < (words_in_line : Int) - 1 := by omega
          simp only [hc, if_true, h2, List.map_cons, List.sum_cons, Nat.cast_add]
          omega
      · rw [hlc]
        split <;> exact h3

theorem lines_loop_text (env : Env) (filepath : String) (k : Nat) (g g2 : Gen)
    (hr : lines_loop env filepath k g = .ok g2) :
    ∃ ls : List (List (List Nat)), ls.length = k ∧ (∀ l ∈ ls, 1 ≤ l.length ∧ l.length ≤ 8) ∧
      g2.out = g.out ++ render_text ls ∧
      g2.bytes_written = g.bytes_written + text_bytes ls ∧
      g2.line_count = g.line_count + (k : Int) := by
  induction k generalizing g with
  | zero =>
    simp only [lines_loop, Except.ok.injEq] at hr
    subst hr
    exact ⟨[], rfl, by simp, by simp [render_text], by simp [text_bytes], by simp⟩
  | succ k ih =>
    simp only [lines_loop] at hr
    split at hr
    · cases hr
    · rename_i g1 hw
      obtain ⟨ws, hlen, hout, hbytes, hlc⟩ :=
        words_loop_text env filepath _ _ 0 _ g1 (by omega) hw
      obtain ⟨ls, hlen2, hall, hout2, hbytes2, hlc2⟩ := ih _ hr
      refine ⟨ws :: ls, by simp [hlen2], ?_, ?_, ?_, ?_⟩
      · intro l hl
        rcases List.mem_cons.mp hl with rfl | hl
        · rw [hlen]
          omega
        · exact hall l hl
      · rw [hout2]
        simp [hout, render_text, render_line]
      · rw [hbytes2]
        simp only [hbytes, text_bytes, line_bytes, hlen]
        simp only [Nat.add_sub_cancel]
        ring
      · rw [hlc2]
        simp only [hlc]
        push_cast
        ring

theorem render_text_length (ls : List (List (List Nat)))
    (h : ∀ l ∈ ls, 1 ≤ l.length) : ((render_text ls).length : Int) = text_bytes ls := by
  have hw : ∀ l : List (List Nat), 1 ≤ l.length →
      ((render_words l).length : Int) =
        ((l.map List.length).sum : Nat) + ((l.length - 1 : Nat) : Int) := by
    intro l
    induction l with
    | nil => intro h0; simp at h0
    | cons x l ih =>
      intro _
      cases l with
      | nil => simp [render_words]
      | cons y l =>
        have := ih (by simp)
        simp only [render_words, List.length_append, List.length_cons, List.length_nil,
          List.map_cons, List.sum_cons, Nat.cast_add] at this ⊢
        omega
  induction ls with
  | nil => simp [render_text, text_bytes]
  | cons l t ih =>
    have h1 := hw l (h l (List.mem_cons_self _ _))
    have h2 := ih (fun x hx => h x (List.mem_cons_of_mem _ hx))
    simp only [render_text, render_line, text_bytes, line_bytes, List.length_append,
      List.length_singleton, Nat.cast_add, Nat.cast_one]
    omega

/-! ## C10: the recorded size -/

/-- C10: whenever `create_random_text_file` returns 0, the file at `filepath` holds a text made
of lines of one or more words, and the value stored in `*out_bytes` is the sum of all word
lengths plus one byte per separating space plus one byte per line terminator, which is exactly
the number of bytes of that text. -/
theorem out_bytes_is_content_length (env : Env) (filepath : String) (lines : Int) (w w2 : World)
    (bytes lns : Int) (t : String)
    (h : create_random_text_file env filepath lines w = (some (bytes, lns, t), w2)) :
    ∃ ls : List (List (List Nat)), (∀ l ∈ ls, 1 ≤ l.length) ∧
      w2.written filepath = some (render_text ls) ∧
      bytes = text_bytes ls ∧ bytes = ((render_text ls).length : Int) := by
  unfold create_random_text_file at h
  split at h
  · cases h
  · split at h
    · cases h
    · rename_i g hg
      obtain ⟨ls, _, hall, hout, hbytes, _⟩ := lines_loop_text env filepath _ _ g hg
      simp only [Prod.mk.injEq, Option.some.injEq] at h
      obtain ⟨⟨hb, _, _⟩, hw⟩ := h
      have hall1 : ∀ l ∈ ls, 1 ≤ l.length := fun l hl => (hall l hl).1
      have hb2 : bytes = text_bytes ls := by
        rw [← hb, hbytes]
        simp
      refine ⟨ls, hall1, ?_, hb2, ?_⟩
      · rw [← hw]
        simp [close_file, hout]
      · rw [render_text_length ls hall1]
        exact hb2

/-- A file of two lines in the all-success environment: the call returns 0 with 46 bytes. -/
theorem out_bytes_is_content_length_witness :
    (create_random_text_file env_ok "example_root/f.txt" 2 empty_world).1 =
      some (46, 2, "2024-01-01 00:00:00") ∧
    ∃ ls : List (List (List Nat)), (∀ l ∈ ls, 1 ≤ l.length) ∧
      (create_random_text_file env_ok "example_root/f.txt" 2 empty_world).2.written
        "example_root/f.txt" = some (render_text ls) ∧
      (46 : Int) = text_bytes ls ∧ (46 : Int) = ((render_text ls).length : Int) :=
  ⟨by decide,
   out_bytes_is_content_length env_ok "example_root/f.txt" 2 empty_world
     (create_random_text_file env_ok "example_root/f.txt" 2 empty_world).2
     46 2 "2024-01-01 00:00:00" (Prod.ext (by decide) rfl)⟩

/-! ## C9: the number of files created -/

theorem words_loop_ok (env : Env) (hpr : ∀ p k, env.fprintf_ok p k = true) (filepath : String)
    (words_in_line k w : Nat) (g : Gen) :
    ∃ g2, words_loop env filepath words_in_line k w g = .ok g2 := by
  induction k generalizing w g with
  | zero => exact ⟨g, rfl⟩
  | succ k ih =>
    simp only [words_loop, hpr, Bool.not_true, Bool.false_eq_true, if_false]
    exact ih _ _

theorem lines_loop_ok (env : Env) (hpr : ∀ p k, env.fprintf_ok p k = true) (filepath : String)
    (k : Nat) (g : Gen) : ∃ g2, lines_loop env filepath k g = .ok g2 := by
  induction k generalizing g with
  | zero => exact ⟨g, rfl⟩
  | succ k ih =>
    simp only [lines_loop]
    obtain ⟨g1, h1⟩ := words_loop_ok env hpr filepath (env.rand g.calls % 8 + 1)
      (env.rand g.calls % 8 + 1) 0 { g with calls := g.calls + 1 }
    rw [h1]
    exact ih _

theorem create_ok (env : Env) (hop : ∀ p, env.fopen_ok p = true)
    (hpr : ∀ p k, env.fprintf_ok p k = true) (filepath : String) (lines : Int) (w : World) :
    ∃ res, (create_random_text_file env filepath lines w).1 = some res := by
  unfold create_random_text_file
  simp only [hop, Bool.not_true, Bool.false_eq_true, if_false]
  obtain ⟨g, hg⟩ := lines_loop_ok env hpr filepath lines.toNat ⟨w.rand_calls, env.garbage, [], 0, 0⟩
  rw [hg]
  exact ⟨_, rfl⟩

theorem files_loop_length (env : Env) (hop : ∀ p, env.fopen_ok p = true)
    (hpr : ∀ p k, env.fprintf_ok p k = true) (dir : String) (level idx k fidx : Nat)
    (acc : List Row × World) :
    (files_loop env dir level idx k fidx acc).1.length = acc.1.length + k := by
  induction k generalizing fidx acc with
  | zero => rfl
  | succ k ih =>
    simp only [files_loop]
    obtain ⟨res, hres⟩ := create_ok env hop hpr (file_path dir level idx fidx) LINES_PER_FILE acc.2
    rw [hres]
    simp only
    rw [ih]
    simp only [List.length_append, List.length_singleton]
    omega

theorem make_dir_ok (env : Env) (hmk : ∀ p, env.mkdir_ok p = true) (path : String) (w : World) :
    (make_dir_if_needed env path w).1 = 0 := by
  unfold make_dir_if_needed
  split
  · rfl
  · simp [hmk]

theorem loop_l3_length (env : Env) (hmk : ∀ p, env.mkdir_ok p = true)
    (hop : ∀ p, env.fopen_ok p = true) (hpr : ∀ p k, env.fprintf_ok p k = true)
    (path_l2 : String) (n k : Nat) (acc : List Row × World) :
    (loop_l3 env path_l2 n k acc).1.length = acc.1.length + n * FILES_PER_DIR := by
  induction n generalizing k acc with
  | zero => simp [loop_l3]
  | succ n ih =>
    simp only [loop_l3, make_dir_ok env hmk, ne_eq, not_true_eq_false, if_false]
    rw [ih, files_loop_length env hop hpr]
    simp only [Nat.add_mul, Nat.one_mul]
    omega

theorem loop_l2_length (env : Env) (hmk : ∀ p, env.mkdir_ok p = true)
    (hop : ∀ p, env.fopen_ok p = true) (hpr : ∀ p k, env.fprintf_ok p k = true)
    (path_l1 : String) (n j : Nat) (acc : List Row × World) :
    (loop_l2 env path_l1 n j acc).1.length =
      acc.1.length + n * (FILES_PER_DIR + DIRS_L3 * FILES_PER_DIR) := by
  induction n generalizing j acc with
  | zero => simp [loop_l2]
  | succ n ih =>
    simp only [loop_l2, make_dir_ok env hmk, ne_eq, not_true_eq_false, if_false]
    rw [ih, loop_l3_length env hmk hop hpr, files_loop_length env hop hpr]
    simp only [Nat.add_mul, Nat.one_mul]
    omega

theorem loop_l1_length (env : Env) (hmk : ∀ p, env.mkdir_ok p = true)
    (hop : ∀ p, env.fopen_ok p = true) (hpr : ∀ p k, env.fprintf_ok p k = true)
    (n i : Nat) (acc : List Row × World) :
    (loop_l1 env n i acc).1.length =
      acc.1.length +
        n * (FILES_PER_DIR + DIRS_L2 * (FILES_PER_DIR + DIRS_L3 * FILES_PER_DIR)) := by
  induction n generalizing i acc with
  | zero => simp [loop_l1]
  | succ n ih =>
    simp only [loop_l1, make_dir_ok env hmk, ne_eq, not_true_eq_false, if_false]
    rw [ih, loop_l2_length env hmk hop hpr, files_loop_length env hop hpr]
    simp only [Nat.add_mul, Nat.one_mul]
    omega

/-- C9, as stated, fails: in an environment where every directory creation and every write
succeeds, `main` exits with status 0 after writing 28 manifest rows, not 30. -/
theorem populator_rows_not_30 :
    (∀ p, env_ok.mkdir_ok p = true) ∧ (∀ p, env_ok.fopen_ok p = true) ∧
    (∀ p k, env_ok.fprintf_ok p k = true) ∧
    (main env_ok empty_world).1 = 0 ∧ (main env_ok empty_world).2.1.length = 28 ∧
    (main env_ok empty_world).2.1.length ≠ 30 := by
  refine ⟨fun _ => rfl, fun _ => rfl, fun _ _ => rfl, ?_, ?_, ?_⟩ <;> decide

/-- C9, amended: with `DIRS_L1 = DIRS_L2 = DIRS_L3 = FILES_PER_DIR = 2` and every directory
creation and file write succeeding, `main` exits with status 0 and writes exactly
`2*2 + 2*2*2 + 2*2*2*2 = 28` manifest rows, one per created file: two files in each of the
2 + 4 + 8 directories of the three levels and none in the root. -/
theorem populator_rows (env : Env) (w : World) (hmk : ∀ p, env.mkdir_ok p = true)
    (hop : ∀ p, env.fopen_ok p = true) (hpr : ∀ p k, env.fprintf_ok p k = true) :
    (main env w).1 = 0 ∧
    (main env w).2.1.length = 2 * 2 + 2 * 2 * 2 + 2 * 2 * 2 * 2 ∧
    (main env w).2.1.length = 28 := by
  have h : (main env w).1 = 0 ∧ (main env w).2.1.length = 28 := by
    unfold main
    simp only [hop, Bool.not_true, Bool.false_eq_true, if_false, make_dir_ok env hmk, ne_eq,
      not_true_eq_false]
    refine ⟨trivial, ?_⟩
    rw [loop_l1_length env hmk hop hpr]
    rfl
  exact ⟨h.1, h.2, h.2⟩

/-- The all-success environment with `rand()` returning 0, 7, 14, ... from an empty working
directory. -/
theorem populator_rows_witness :
    (∀ p, env_ok.mkdir_ok p = true) ∧ (main env_ok empty_world).2.1.length = 28 :=
  ⟨fun _ => rfl,
   (populator_rows env_ok empty_world (fun _ => rfl) (fun _ => rfl) (fun _ _ => rfl)).2.2⟩

/-! ## C13: `make_dir_if_needed` -/

/-- C13: when the path is already there `make_dir_if_needed` returns 0 and leaves the world
unchanged; after a call that returned 0 a second call on the same path returns 0 and changes
nothing; the result is 0 or -1, it is -1 exactly when the path is absent and `mkdir` fails, and
then the world is unchanged as well. -/
theorem make_dir_idempotent (env : Env) (path : String) (w : World) :
    (w.present path = true → make_dir_if_needed env path w = (0, w)) ∧
    ((make_dir_if_needed env path w).1 = 0 →
      make_dir_if_needed env path (make_dir_if_needed env path w).2 =
        (0, (make_dir_if_needed env path w).2)) ∧
    ((make_dir_if_needed env path w).1 = 0 ∨ (make_dir_if_needed env path w).1 = -1) ∧
    ((make_dir_if_needed env path w).1 = -1 ↔
      (w.present path = false ∧ env.mkdir_ok path = false)) ∧
    ((make_dir_if_needed env path w).1 = -1 → (make_dir_if_needed env path w).2 = w) := by
  unfold make_dir_if_needed
  by_cases hp : w.present path = true
  · simp [hp]
  · by_cases hm : env.mkdir_ok path = true
    · simp [hp, hm]
    · simp [hp, hm]

/-- From an empty working directory: the first call creates the directory, the second finds
it and changes nothing. -/
theorem make_dir_idempotent_witness :
    (make_dir_if_needed env_ok "example_root" empty_world).1 = 0 ∧
    make_dir_if_needed env_ok "example_root"
        (make_dir_if_needed env_ok "example_root" empty_world).2 =
      (0, (make_dir_if_needed env_ok "example_root" empty_world).2) :=
  ⟨by decide,
   (make_dir_idempotent env_ok "example_root" empty_world).2.1 (by decide)⟩

/-! ## The words written by `gen_random_word` -/

theorem letters_loop_word (env : Env) (k i : Nat) (g : Gen) :
    (∀ j, i ≤ j → j < i + k →
      97 ≤ (letters_loop env k i g).word j ∧ (letters_loop env k i g).word j ≤ 122) ∧
    (∀ j, (j < i ∨ i + k ≤ j) → (letters_loop env k i g).word j = g.word j) := by
  induction k generalizing i g with
  | zero =>
    constructor
    · intro j h1 h2
      omega
    · intro j _
      rfl
  | succ k ih =>
    simp only [letters_loop]
    obtain ⟨h1, h2⟩ := ih (i + 1)
      { g with word := Function.update g.word i (97 + env.rand g.calls % 26),
               calls := g.calls + 1 }
    constructor
    · intro j hj1 hj2
      by_cases hji : j = i
      · subst hji
        rw [h2 j (Or.inl (Nat.lt_succ_self j))]
        simp only [Function.update_same]
        omega
      · exact h1 j (by omega) (by omega)
    · intro j hj
      rw [h2 j (by omega)]
      have : j ≠ i := by omega
      simp [Function.update, this]

theorem gen_random_word_word (env : Env) (maxw : Nat) (g : Gen) :
    (∀ j, j < env.rand g.calls % maxw + 1 →
      97 ≤ (gen_random_word env maxw g).word j ∧ (gen_random_word env maxw g).word j ≤ 122) ∧
    (gen_random_word env maxw g).word (env.rand g.calls % maxw + 1) = 0 ∧
    (∀ j, env.rand g.calls % maxw + 1 < j → (gen_random_word env maxw g).word j = g.word j) := by
  obtain ⟨h1, h2⟩ := letters_loop_word env (env.rand g.calls % maxw + 1) 0
    { g with calls := g.calls + 1 }
  simp only [gen_random_word]
  refine ⟨?_, ?_, ?_⟩
  · intro j hj
    have hne : j ≠ env.rand g.calls % maxw + 1 := by omega
    simp only [Function.update, hne, dite_false]
    exact h1 j (Nat.zero_le _) (by omega)
  · simp
  · intro j hj
    have hne : j ≠ env.rand g.calls % maxw + 1 := by omega
    simp only [Function.update, hne, dite_false]
    exact h2 j (Or.inr (by omega))

theorem c_str_from_eq (buf : Nat → Nat) (len : Nat) (hz : buf len = 0) (k i : Nat)
    (hnz : ∀ j, i ≤ j → j < len → buf j ≠ 0) (hi : i ≤ len) (hk : len - i < k) :
    c_str_from buf k i = (List.range' i (len - i)).map buf := by
  induction k generalizing i with
  | zero => omega
  | succ k ih =>
    simp only [c_str_from]
    by_cases hil : i = len
    · subst hil
      simp [hz]
    · have hlt : i < len := by omega
      have e : len - i = (len - (i + 1)) + 1 := by omega
      rw [if_neg (hnz i (Nat.le_refl _) hlt), ih (i + 1) (fun j h1 h2 => hnz j (by omega) h2)
        (by omega) (by omega), e, List.range'_succ]
      simp

/-- The string that `gen_random_word(word, 10)` leaves in `word` is a word of 1 to 10
lower-case letters. -/
theorem gen_word_is_word (env : Env) (g : Gen) :
    is_word (c_str (gen_random_word env 10 g).word) := by
  obtain ⟨h1, h2, _⟩ := gen_random_word_word env 10 g
  have hlen : env.rand g.calls % 10 + 1 ≤ 10 := by omega
  have e := c_str_from_eq (gen_random_word env 10 g).word (env.rand g.calls % 10 + 1) h2 64 0
    (fun j _ hj => by have := (h1 j hj).1; omega) (Nat.zero_le _) (by omega)
  unfold c_str
  rw [e]
  refine ⟨by simp, by simp; omega, ?_⟩
  intro b hb
  obtain ⟨j, hj, rfl⟩ := List.mem_map.mp hb
  have hj2 : j < env.rand g.calls % 10 + 1 := by
    have := List.mem_range'_1.mp hj
    omega
  exact h1 j hj2

/-! ## Lines of words -/

theorem words_loop_words (env : Env) (filepath : String) (words_in_line : Nat) (k w : Nat)
    (g g2 : Gen) (hk : k + w = words_in_line)
    (hr : words_loop env filepath words_in_line k w g = .ok g2) :
    ∃ ws : List (List Nat), ws.length = k ∧ (∀ x ∈ ws, is_word x) ∧
      g2.out = g.out ++ render_words ws ∧ g2.line_count = g.line_count := by
  induction k generalizing w g with
  | zero =>
    simp only [words_loop, Except.ok.injEq] at hr
    subst hr
    exact ⟨[], rfl, by simp, by simp [render_words], rfl⟩
  | succ k ih =>
    simp only [words_loop] at hr
    split at hr
    · cases hr
    · obtain ⟨h1, _, h3⟩ := gen_random_word_frame env 10 g
      obtain ⟨ws, hlen, hall, hout, hlc⟩ := ih _ _ (by omega) hr
      refine ⟨c_str (gen_random_word env 10 g).word :: ws, by simp [hlen], ?_, ?_, ?_⟩
      · intro x hx
        rcases List.mem_cons.mp hx with rfl | hx
        · exact gen_word_is_word env g
        · exact hall x hx
      · rw [hout]
        cases ws with
        | nil =>
          have hk0 : k = 0 := by simpa using hlen.symm
          have hc : ¬ ((w : Int) < (words_in_line : Int) - 1) := by omega
          simp [hc, render_words, h1]
        | cons y l =>
          have hk0 : 0 < k := by
            rw [← hlen]
            simp
          have hc : (w : Int) < (words_in_line : Int) - 1 := by omega
          simp [hc, render_words, h1]
      · rw [hlc]
        split <;> exact h3

theorem words_loop_failed (env : Env) (filepath : String) (words_in_line : Nat) (k w : Nat)
    (g g2 : Gen) (hr : words_loop env filepath words_in_line k w g = .error g2) :
    ∃ rest : List Nat, g2.out = g.out ++ rest ∧ ∀ b ∈ rest, b ≠ 10 := by
  induction k generalizing w g with
  | zero => simp [words_loop] at hr
  | succ k ih =>
    simp only [words_loop] at hr
    obtain ⟨h1, _, _⟩ := gen_random_word_frame env 10 g
    have hw := gen_word_is_word env g
    split at hr
    · simp only [Except.error.injEq] at hr
      subst hr
      exact ⟨[], by simp [h1], by simp⟩
    · obtain ⟨rest, hout, hrest⟩ := ih _ _ hr
      split at hout
      · refine ⟨c_str (gen_random_word env 10 g).word ++ [32] ++ rest, ?_, ?_⟩
        · rw [hout]
          simp [h1]
        · intro b hb
          simp only [List.mem_append, List.mem_singleton] at hb
          rcases hb with (hb | hb) | hb
          · have := hw.2.2 b hb
            omega
          · omega
          · exact hrest b hb
      · refine ⟨c_str (gen_random_word env 10 g).word ++ rest, ?_, ?_⟩
        · rw [hout]
          simp [h1]
        · intro b hb
          rcases List.mem_append.mp hb with hb | hb
          · have := hw.2.2 b hb
            omega
          · exact hrest b hb

theorem lines_loop_lines (env : Env) (filepath : String) (k : Nat) (g g2 : Gen)
    (hr : lines_loop env filepath k g = .ok g2) :
    ∃ ls : List (List (List Nat)), ls.length = k ∧ (∀ l ∈ ls, is_line l) ∧
      g2.out = g.out ++ render_text ls ∧ g2.line_count = g.line_count + (k : Int) := by
  induction k generalizing g with
  | zero =>
    simp only [lines_loop, Except.ok.injEq] at hr
    subst hr
    exact ⟨[], rfl, by simp, by simp [render_text], by simp⟩
  | succ k ih =>
    simp only [lines_loop] at hr
    split at hr
    · cases hr
    · rename_i g1 hw
      obtain ⟨ws, hlen, hwords, hout, hlc⟩ :=
        words_loop_words env filepath _ _ 0 _ g1 (by omega) hw
      obtain ⟨ls, hlen2, hall, hout2, hlc2⟩ := ih _ hr
      refine ⟨ws :: ls, by simp [hlen2], ?_, ?_, ?_⟩
      · intro l hl
        rcases List.mem_cons.mp hl with rfl | hl
        · refine ⟨?_, ?_, hwords⟩
          · rw [hlen]
            omega
          · rw [hlen]
            omega
        · exact hall l hl
      · rw [hout2]
        simp [hout, render_text, render_line]
      · rw [hlc2]
        simp only [hlc]
        push_cast
        ring

theorem lines_loop_failed (env : Env) (filepath : String) (k : Nat) (g g2 : Gen)
    (hr : lines_loop env filepath k g = .error g2) :
    ∃ (ls : List (List (List Nat))) (rest : List Nat), (∀ l ∈ ls, is_line l) ∧
      g2.out = g.out ++ render_text ls ++ rest ∧ ∀ b ∈ rest, b ≠ 10 := by
  induction k generalizing g with
  | zero => simp [lines_loop] at hr
  | succ k ih =>
    simp only [lines_loop] at hr
    split at hr
    · rename_i g1 hw
      simp only [Except.error.injEq] at hr
      subst hr
      obtain ⟨rest, hout, hrest⟩ := words_loop_failed env filepath _ _ _ _ _ hw
      exact ⟨[], rest, by simp, by simpa [render_text] using hout, hrest⟩
    · rename_i g1 hw
      obtain ⟨ws, hlen, hwords, hout, _⟩ :=
        words_loop_words env filepath _ _ 0 _ g1 (by omega) hw
      obtain ⟨ls, rest, hall, hout2, hrest⟩ := ih _ hr
      refine ⟨ws :: ls, rest, ?_, ?_, hrest⟩
      · intro l hl
        rcases List.mem_cons.mp hl with rfl | hl
        · refine ⟨?_, ?_, hwords⟩
          · rw [hlen]
            omega
          · rw [hlen]
            omega
        · exact hall l hl
      · rw [hout2]
        simp [hout, render_text, render_line]

theorem render_words_no_lf (l : List (List Nat)) (h : ∀ x ∈ l, is_word x) :
    (render_words l).count 10 = 0 := by
  induction l with
  | nil => simp [render_words]
  | cons x l ih =>
    have hx : x.count 10 = 0 := by
      apply List.count_eq_zero.mpr
      intro hm
      have := (h x (List.mem_cons_self _ _)).2.2 10 hm
      omega
    cases l with
    | nil => simpa [render_words] using hx
    | cons y l =>
      have := ih (fun z hz => h z (List.mem_cons_of_mem _ hz))
      simp only [render_words, List.count_append, hx, this]
      simp

theorem render_text_lf (ls : List (List (List Nat))) (h : ∀ l ∈ ls, is_line l) :
    (render_text ls).count 10 = ls.length := by
  induction ls with
  | nil => simp [render_text]
  | cons l t ih =>
    have h1 := render_words_no_lf l (h l (List.mem_cons_self _ _)).2.2
    have h2 := ih (fun x hx => h x (List.mem_cons_of_mem _ hx))
    simp only [render_text, render_line, List.count_append, h1, h2, List.length_cons]
    simp
    omega

/-! ## C11: the recorded line count -/

theorem create_lines (env : Env) (filepath : String) (lines : Int) (w : World)
    (res : Int × Int × String)
    (h : (create_random_text_file env filepath lines w).1 = some res) :
    ∃ ls : List (List (List Nat)), ls.length = lines.toNat ∧ (∀ l ∈ ls, is_line l) ∧
      (create_random_text_file env filepath lines w).2.written filepath =
        some (render_text ls) ∧
      res.2.1 = (lines.toNat : Int) := by
  unfold create_random_text_file at h ⊢
  split at h
  · cases h
  · rename_i hop
    simp only [hop, if_false]
    split at h
    · cases h
    · rename_i g hg
      obtain ⟨ls, hlen, hall, hout, hlc⟩ := lines_loop_lines env filepath _ _ g hg
      simp only [Option.some.injEq] at h
      refine ⟨ls, hlen, hall, ?_, ?_⟩
      · simp [close_file, hout]
      · rw [← h]
        simpa using hlc

theorem files_loop_all (P : Row → Prop) (env : Env)
    (hP : ∀ path w res, (create_random_text_file env path LINES_PER_FILE w).1 = some res →
      P ⟨path, res.1, res.2.1, res.2.2⟩)
    (dir : String) (level idx k fidx : Nat) (acc : List Row × World)
    (hacc : ∀ r ∈ acc.1, P r) : ∀ r ∈ (files_loop env dir level idx k fidx acc).1, P r := by
  induction k generalizing fidx acc with
  | zero => exact hacc
  | succ k ih =>
    simp only [files_loop]
    split
    · rename_i res hres
      apply ih
      intro r hr
      rcases List.mem_append.mp hr with hr | hr
      · exact hacc r hr
      · have : r = ⟨file_path dir level idx fidx, res.1, res.2.1, res.2.2⟩ := by simpa using hr
        rw [this]
        exact hP _ _ _ hres
    · apply ih
      exact hacc

theorem loop_l3_all (P : Row → Prop) (env : Env)
    (hP : ∀ path w res, (create_random_text_file env path LINES_PER_FILE w).1 = some res →
      P ⟨path, res.1, res.2.1, res.2.2⟩)
    (path_l2 : String) (n k : Nat) (acc : List Row × World)
    (hacc : ∀ r ∈ acc.1, P r) : ∀ r ∈ (loop_l3 env path_l2 n k acc).1, P r := by
  induction n generalizing k acc with
  | zero => exact hacc
  | succ n ih =>
    simp only [loop_l3]
    split
    · exact ih _ _ hacc
    · exact ih _ _ (files_loop_all P env hP _ _ _ _ _ _ hacc)

theorem loop_l2_all (P : Row → Prop) (env : Env)
    (hP : ∀ path w res, (create_random_text_file env path LINES_PER_FILE w).1 = some res →
      P ⟨path, res.1, res.2.1, res.2.2⟩)
    (path_l1 : String) (n j : Nat) (acc : List Row × World)
    (hacc : ∀ r ∈ acc.1, P r) : ∀ r ∈ (loop_l2 env path_l1 n j acc).1, P r := by
  induction n generalizing j acc with
  | zero => exact hacc
  | succ n ih =>
    simp only [loop_l2]
    split
    · exact ih _ _ hacc
    · exact ih _ _ (loop_l3_all P env hP _ _ _ _ (files_loop_all P env hP _ _ _ _ _ _ hacc))

theorem loop_l1_all (P : Row → Prop) (env : Env)
    (hP : ∀ path w res, (create_random_text_file env path LINES_PER_FILE w).1 = some res →
      P ⟨path, res.1, res.2.1, res.2.2⟩)
    (n i : Nat) (acc : List Row × World)
    (hacc : ∀ r ∈ acc.1, P r) : ∀ r ∈ (loop_l1 env n i acc).1, P r := by
  induction n generalizing i acc with
  | zero => exact hacc
  | succ n ih =>
    simp only [loop_l1]
    split
    · exact ih _ _ hacc
    · exact ih _ _ (loop_l2_all P env hP _ _ _ _ (files_loop_all P env hP _ _ _ _ _ _ hacc))

theorem main_all (P : Row → Prop) (env : Env)
    (hP : ∀ path w res, (create_random_text_file env path LINES_PER_FILE w).1 = some res →
      P ⟨path, res.1, res.2.1, res.2.2⟩)
    (w : World) : ∀ r ∈ (main env w).2.1, P r := by
  unfold main
  split
  · simp
  · dsimp only
    split
    · simp
    · exact loop_l1_all P env hP _ _ _ (by simp)

/-- C11: whenever `create_random_text_file` is called with a non-negative `lines` and returns
0, the value stored in `*out_lines` is the number of line feeds (byte 10) in the text it handed
to the file, and it equals `lines`; hence every manifest row that `main` writes records
`LINES_PER_FILE = 10` lines. -/
theorem out_lines_is_line_count (env : Env) (filepath : String) (lines : Int) (w w2 : World)
    (bytes lns : Int) (t : String) (hl : 0 ≤ lines)
    (h : create_random_text_file env filepath lines w = (some (bytes, lns, t), w2)) :
    (∃ content, w2.written filepath = some content ∧ lns = (content.count 10 : Int)) ∧
    lns = lines ∧
    (∀ (env2 : Env) (w0 : World), ∀ row ∈ (main env2 w0).2.1,
      row.line_count = LINES_PER_FILE ∧ row.line_count = 10) := by
  have h1 : (create_random_text_file env filepath lines w).1 = some (bytes, lns, t) := by
    rw [h]
  have h2 : (create_random_text_file env filepath lines w).2 = w2 := by
    rw [h]
  obtain ⟨ls, hlen, hall, hcontent, hl2⟩ := create_lines env filepath lines w _ h1
  rw [h2] at hcontent
  simp only at hl2
  refine ⟨⟨render_text ls, hcontent, ?_⟩, ?_, ?_⟩
  · rw [render_text_lf ls hall, hlen, hl2]
  · rw [hl2]
    exact Int.toNat_of_nonneg hl
  · intro env2 w0
    apply main_all (fun r => r.line_count = LINES_PER_FILE ∧ r.line_count = 10) env2
    intro path w1 res hres
    obtain ⟨_, _, _, _, e⟩ := create_lines env2 path LINES_PER_FILE w1 res hres
    simp only
    rw [e]
    exact ⟨rfl, rfl⟩

/-- A file of two lines in the all-success environment: `*out_lines` is 2. -/
theorem out_lines_is_line_count_witness :
    (create_random_text_file env_ok "example_root/f.txt" 2 empty_world).1 =
      some (46, 2, "2024-01-01 00:00:00") ∧ (2 : Int) = 2 :=
  ⟨by decide,
   (out_lines_is_line_count env_ok "example_root/f.txt" 2 empty_world
     (create_random_text_file env_ok "example_root/f.txt" 2 empty_world).2
     46 2 "2024-01-01 00:00:00" (by decide) (Prod.ext (by decide) rfl)).2.1⟩

/-! ## C12: the shape of every line -/

/-- C12: whenever the file can be opened, the text that `create_random_text_file` hands to it
is a sequence of complete lines, each made of 1 to 8 words of 1 to 10 lower-case letters,
with exactly one space between consecutive words, no leading or trailing space and one line
feed at the end, followed by a remainder without line feed that is empty when the function
returns 0; and `gen_random_word(word, 10)` leaves every cell of `word` beyond index 10 as it
was. -/
theorem lines_well_formed (env : Env) (filepath : String) (lines : Int) (w : World)
    (hop : env.fopen_ok filepath = true) :
    (∃ (ls : List (List (List Nat))) (rest : List Nat),
      (create_random_text_file env filepath lines w).2.written filepath =
        some (render_text ls ++ rest) ∧
      (∀ l ∈ ls, is_line l) ∧ (∀ b ∈ rest, b ≠ 10) ∧
      ((create_random_text_file env filepath lines w).1 ≠ none → rest = [])) ∧
    (∀ (g : Gen) (j : Nat), 10 < j → (gen_random_word env 10 g).word j = g.word j) := by
  constructor
  · unfold create_random_text_file
    simp only [hop, Bool.not_true, Bool.false_eq_true, if_false]
    split
    · rename_i g hg
      obtain ⟨ls, rest, hall, hout, hrest⟩ := lines_loop_failed env filepath _ _ g hg
      exact ⟨ls, rest, by simp [close_file, hout], hall, hrest, by simp⟩
    · rename_i g hg
      obtain ⟨ls, _, hall, hout, _⟩ := lines_loop_lines env filepath _ _ g hg
      exact ⟨ls, [], by simp [close_file, hout], hall, by simp, by simp⟩
  · intro g j hj
    exact (gen_random_word_word env 10 g).2.2 j (by omega)

/-- A file of two lines in the all-success environment. -/
theorem lines_well_formed_witness :
    env_ok.fopen_ok "example_root/f.txt" = true ∧
    ∃ (ls : List (List (List Nat))) (rest : List Nat),
      (create_random_text_file env_ok "example_root/f.txt" 2 empty_world).2.written
        "example_root/f.txt" = some (render_text ls ++ rest) ∧
      (∀ l ∈ ls, is_line l) ∧ (∀ b ∈ rest, b ≠ 10) ∧
      ((create_random_text_file env_ok "example_root/f.txt" 2 empty_world).1 ≠ none →
        rest = []) :=
  ⟨rfl, (lines_well_formed env_ok "example_root/f.txt" 2 empty_world rfl).1⟩

/-! ## C17: the order of the manifest rows -/

theorem files_loop_paths (env : Env) (hop : ∀ p, env.fopen_ok p = true)
    (hpr : ∀ p k, env.fprintf_ok p k = true) (dir : String) (level idx k fidx : Nat)
    (acc : List Row × World) :
    (files_loop env dir level idx k fidx acc).1.map Row.file_path =
      acc.1.map Row.file_path ++ (List.range' fidx k).map (file_path dir level idx) := by
  induction k generalizing fidx acc with
  | zero => simp [files_loop]
  | succ k ih =>
    simp only [files_loop]
    obtain ⟨res, hres⟩ := create_ok env hop hpr (file_path dir level idx fidx) LINES_PER_FILE acc.2
    rw [hres]
    simp only
    rw [ih, List.range'_succ]
    simp

theorem files_loop_paths_all (env : Env) (hop : ∀ p, env.fopen_ok p = true)
    (hpr : ∀ p k, env.fprintf_ok p k = true) (dir : String) (level idx : Nat)
    (acc : List Row × World) :
    (files_loop env dir level idx FILES_PER_DIR 1 acc).1.map Row.file_path =
      acc.1.map Row.file_path ++ files_in_dir dir level idx :=
  files_loop_paths env hop hpr dir level idx FILES_PER_DIR 1 acc

theorem loop_l3_paths (env : Env) (hmk : ∀ p, env.mkdir_ok p = true)
    (hop : ∀ p, env.fopen_ok p = true) (hpr : ∀ p k, env.fprintf_ok p k = true)
    (path_l2 : String) (n k : Nat) (acc : List Row × World) :
    (loop_l3 env path_l2 n k acc).1.map Row.file_path =
      acc.1.map Row.file_path ++
        (List.range' k n).flatMap (fun k => files_in_dir (dir_path path_l2 3 k) 3 k) := by
  induction n generalizing k acc with
  | zero => simp [loop_l3]
  | succ n ih =>
    simp only [loop_l3, make_dir_ok env hmk, ne_eq, not_true_eq_false, if_false]
    rw [ih, files_loop_paths_all env hop hpr, List.range'_succ, List.flatMap_cons]
    simp

theorem loop_l2_paths (env : Env) (hmk : ∀ p, env.mkdir_ok p = true)
    (hop : ∀ p, env.fopen_ok p = true) (hpr : ∀ p k, env.fprintf_ok p k = true)
    (path_l1 : String) (n j : Nat) (acc : List Row × World) :
    (loop_l2 env path_l1 n j acc).1.map Row.file_path =
      acc.1.map Row.file_path ++
        (List.range' j n).flatMap (fun j =>
          files_in_dir (dir_path path_l1 2 j) 2 j ++ paths_l3 (dir_path path_l1 2 j)) := by
  induction n generalizing j acc with
  | zero => simp [loop_l2]
  | succ n ih =>
    simp only [loop_l2, make_dir_ok env hmk, ne_eq, not_true_eq_false, if_false]
    rw [ih, loop_l3_paths env hmk hop hpr, files_loop_paths_all env hop hpr, List.range'_succ,
      List.flatMap_cons]
    simp [paths_l3]

theorem loop_l1_paths (env : Env) (hmk : ∀ p, env.mkdir_ok p = true)
    (hop : ∀ p, env.fopen_ok p = true) (hpr : ∀ p k, env.fprintf_ok p k = true)
    (n i : Nat) (acc : List Row × World) :
    (loop_l1 env n i acc).1.map Row.file_path =
      acc.1.map Row.file_path ++
        (List.range' i n).flatMap (fun i =>
          files_in_dir (dir_path ROOT_DIR 1 i) 1 i ++ paths_l2 (dir_path ROOT_DIR 1 i)) := by
  induction n generalizing i acc with
  | zero => simp [loop_l1]
  | succ n ih =>
    simp only [loop_l1, make_dir_ok env hmk, ne_eq, not_true_eq_false, if_false]
    rw [ih, loop_l2_paths env hmk hop hpr, files_loop_paths_all env hop hpr, List.range'_succ,
      List.flatMap_cons]
    simp [paths_l2]

theorem main_paths (env : Env) (w : World) (hmk : ∀ p, env.mkdir_ok p = true)
    (hop : ∀ p, env.fopen_ok p = true) (hpr : ∀ p k, env.fprintf_ok p k = true) :
    (main env w).2.1.map Row.file_path = paths_l1 := by
  unfold main
  simp only [hop, Bool.not_true, Bool.false_eq_true, if_false, make_dir_ok env hmk, ne_eq,
    not_true_eq_false]
  rw [loop_l1_paths env hmk hop hpr]
  simp [paths_l1]

theorem make_dir_failed_world (env : Env) (path : String) (w : World)
    (h : (make_dir_if_needed env path w).1 ≠ 0) : (make_dir_if_needed env path w).2 = w := by
  unfold make_dir_if_needed at h ⊢
  split
  · rfl
  · split
    · rfl
    · rename_i h1 h2
      simp [h1, h2] at h

/-- C17: when every directory creation and file write succeeds, the file paths of the
manifest rows are exactly the depth-first, files-before-subdirectories enumeration of the
specification, which is the written-out list of 28 paths and has no path twice.  When the
creation of a directory fails, its iteration leaves the rows and the world as they were and
the loop goes on with the next sibling: no row is written for a file under the failed
directory, and the rows of its siblings are produced as without it. -/
theorem manifest_order (env : Env) (w : World) :
    ((∀ p, env.mkdir_ok p = true) → (∀ p, env.fopen_ok p = true) →
      (∀ p k, env.fprintf_ok p k = true) →
      (main env w).2.1.map Row.file_path = manifest_paths ∧
      manifest_paths = manifest_paths_listed ∧ manifest_paths.Nodup) ∧
    (∀ (n i : Nat) (acc : List Row × World),
      (make_dir_if_needed env (dir_path ROOT_DIR 1 i) acc.2).1 ≠ 0 →
        loop_l1 env (n + 1) i acc = loop_l1 env n (i + 1) acc) ∧
    (∀ (path_l1 : String) (n j : Nat) (acc : List Row × World),
      (make_dir_if_needed env (dir_path path_l1 2 j) acc.2).1 ≠ 0 →
        loop_l2 env path_l1 (n + 1) j acc = loop_l2 env path_l1 n (j + 1) acc) ∧
    (∀ (path_l2 : String) (n k : Nat) (acc : List Row × World),
      (make_dir_if_needed env (dir_path path_l2 3 k) acc.2).1 ≠ 0 →
        loop_l3 env path_l2 (n + 1) k acc = loop_l3 env path_l2 n (k + 1) acc) := by
  refine ⟨?_, ?_, ?_, ?_⟩
  · intro hmk hop hpr
    refine ⟨?_, by decide, by decide⟩
    rw [main_paths env w hmk hop hpr]
    decide
  · intro n i acc h
    simp only [loop_l1, h, ne_eq, not_false_eq_true, if_true]
    rw [make_dir_failed_world env _ _ h]
  · intro path_l1 n j acc h
    simp only [loop_l2, h, ne_eq, not_false_eq_true, if_true]
    rw [make_dir_failed_world env _ _ h]
  · intro path_l2 n k acc h
    simp only [loop_l3, h, ne_eq, not_false_eq_true, if_true]
    rw [make_dir_failed_world env _ _ h]

/-- In the all-success environment the rows carry the 28 listed paths; when `mkdir` fails on
`example_root/dir_l1_1` the rows carry the last 14 of them, those under
`example_root/dir_l1_2`, and the iteration of the failed directory is skipped. -/
theorem manifest_order_witness :
    (main env_ok empty_world).2.1.map Row.file_path = manifest_paths ∧
    (main env_l1_1_fails empty_world).2.1.map Row.file_path = manifest_paths_listed.drop 14 ∧
    loop_l1 env_l1_1_fails 2 1 ([], (make_dir_if_needed env_l1_1_fails ROOT_DIR empty_world).2) =
      loop_l1 env_l1_1_fails 1 2
        ([], (make_dir_if_needed env_l1_1_fails ROOT_DIR empty_world).2) :=
  ⟨((manifest_order env_ok empty_world).1 (fun _ => rfl) (fun _ => rfl) (fun _ _ => rfl)).1,
   by decide,
   (manifest_order env_l1_1_fails empty_world).2.1 1 1 _ (by decide)⟩

end CreateFs
